import Mathlib

/-
Verification of the wine-quotekit data pipeline (src/src/lib/wineList.js and
src/src/lib/api/airtable/airtableApi.js) against its specification.

Modelling conventions:
- JavaScript field values (the loosely typed payloads Airtable returns) are the
  inductive type FieldValue below.  JS numbers are modelled as exact rationals;
  the pipeline only manipulates short decimal literals, for which binary
  doubles and exact rationals agree.  NaN and Infinity are outside the
  modelled value space.
- JS objects whose keys matter are association lists in insertion order,
  matching the iteration order of JS objects and Map.
- Async external calls (producer lookup, Airtable REST calls) are parameters
  of the embedded functions; a value of none / Except.error models a rejected
  promise.
-/

namespace WineQuoteKit

/-- Field values as returned by Airtable: scalars, arrays (linked records,
multi-select, lookups) and wrapped objects such as computed AI fields of the
shape having a value property.  nullV covers both JS null and undefined,
obj is an object without a value property. -/
inductive FieldValue where
  | nullV : FieldValue
  | str : String → FieldValue
  | num : ℚ → FieldValue
  | boolV : Bool → FieldValue
  | arr : List FieldValue → FieldValue
  | wrapped : FieldValue → FieldValue
  | obj : FieldValue

mutual

/-- Decidable equality of field values (structural; JS SameValueZero on the
modelled primitive values). -/
def fvDecEq : (a b : FieldValue) → Decidable (a = b)
  | .nullV, .nullV => isTrue rfl
  | .nullV, .str _ => isFalse (fun h => nomatch h)
  | .nullV, .num _ => isFalse (fun h => nomatch h)
  | .nullV, .boolV _ => isFalse (fun h => nomatch h)
  | .nullV, .arr _ => isFalse (fun h => nomatch h)
  | .nullV, .wrapped _ => isFalse (fun h => nomatch h)
  | .nullV, .obj => isFalse (fun h => nomatch h)
  | .str _, .nullV => isFalse (fun h => nomatch h)
  | .str s, .str t =>
    match decEq s t with
    | isTrue h => isTrue (h ▸ rfl)
    | isFalse h => isFalse (fun he => h (FieldValue.str.inj he))
  | .str _, .num _ => isFalse (fun h => nomatch h)
  | .str _, .boolV _ => isFalse (fun h => nomatch h)
  | .str _, .arr _ => isFalse (fun h => nomatch h)
  | .str _, .wrapped _ => isFalse (fun h => nomatch h)
  | .str _, .obj => isFalse (fun h => nomatch h)
  | .num _, .nullV => isFalse (fun h => nomatch h)
  | .num _, .str _ => isFalse (fun h => nomatch h)
  | .num p, .num q =>
    match decEq p q with
    | isTrue h => isTrue (h ▸ rfl)
    | isFalse h => isFalse (fun he => h (FieldValue.num.inj he))
  | .num _, .boolV _ => isFalse (fun h => nomatch h)
  | .num _, .arr _ => isFalse (fun h => nomatch h)
  | .num _, .wrapped _ => isFalse (fun h => nomatch h)
  | .num _, .obj => isFalse (fun h => nomatch h)
  | .boolV _, .nullV => isFalse (fun h => nomatch h)
  | .boolV _, .str _ => isFalse (fun h => nomatch h)
  | .boolV _, .num _ => isFalse (fun h => nomatch h)
  | .boolV a, .boolV b =>
    match decEq a b with
    | isTrue h => isTrue (h ▸ rfl)
    | isFalse h => isFalse (fun he => h (FieldValue.boolV.inj he))
  | .boolV _, .arr _ => isFalse (fun h => nomatch h)
  | .boolV _, .wrapped _ => isFalse (fun h => nomatch h)
  | .boolV _, .obj => isFalse (fun h => nomatch h)
  | .arr _, .nullV => isFalse (fun h => nomatch h)
  | .arr _, .str _ => isFalse (fun h => nomatch h)
  | .arr _, .num _ => isFalse (fun h => nomatch h)
  | .arr _, .boolV _ => isFalse (fun h => nomatch h)
  | .arr l, .arr m =>
    match fvlDecEq l m with
    | isTrue h => isTrue (h ▸ rfl)
    | isFalse h => isFalse (fun he => h (FieldValue.arr.inj he))
  | .arr _, .wrapped _ => isFalse (fun h => nomatch h)
  | .arr _, .obj => isFalse (fun h => nomatch h)
  | .wrapped _, .nullV => isFalse (fun h => nomatch h)
  | .wrapped _, .str _ => isFalse (fun h => nomatch h)
  | .wrapped _, .num _ => isFalse (fun h => nomatch h)
  | .wrapped _, .boolV _ => isFalse (fun h => nomatch h)
  | .wrapped _, .arr _ => isFalse (fun h => nomatch h)
  | .wrapped v, .wrapped w =>
    match fvDecEq v w with
    | isTrue h => isTrue (h ▸ rfl)
    | isFalse h => isFalse (fun he => h (FieldValue.wrapped.inj he))
  | .wrapped _, .obj => isFalse (fun h => nomatch h)
  | .obj, .nullV => isFalse (fun h => nomatch h)
  | .obj, .str _ => isFalse (fun h => nomatch h)
  | .obj, .num _ => isFalse (fun h => nomatch h)
  | .obj, .boolV _ => isFalse (fun h => nomatch h)
  | .obj, .arr _ => isFalse (fun h => nomatch h)
  | .obj, .wrapped _ => isFalse (fun h => nomatch h)
  | .obj, .obj => isTrue rfl

/-- Decidable equality of field-value lists. -/
def fvlDecEq : (l m : List FieldValue) → Decidable (l = m)
  | [], [] => isTrue rfl
  | [], _ :: _ => isFalse (fun h => nomatch h)
  | _ :: _, [] => isFalse (fun h => nomatch h)
  | a :: as, b :: bs =>
    match fvDecEq a b with
    | isFalse h => isFalse (fun he => h (List.cons.inj he).1)
    | isTrue h1 =>
      match fvlDecEq as bs with
      | isTrue h2 => isTrue (by rw [h1, h2])
      | isFalse h2 => isFalse (fun he => h2 (List.cons.inj he).2)

end

instance : DecidableEq FieldValue := fvDecEq

/-- JS truthiness of a modelled value (falsy: null/undefined, empty string,
the number 0, false; every object and array is truthy). -/
def FieldValue.truthy : FieldValue → Bool
  | .nullV => false
  | .str s => s ≠ ""
  | .num q => q ≠ 0
  | .boolV b => b
  | .arr _ => true
  | .wrapped _ => true
  | .obj => true

/-- Decimal rendering of a rational, matching JS number-to-string on the
finite decimal values this pipeline produces (integers and short decimal
fractions).  Rationals without a short decimal expansion cannot arise from
the modelled inputs; they get a fraction rendering as a total fallback. -/
def numToString (q : ℚ) : String :=
  if q.den = 1 then toString q.num
  else
    match (List.range 31).find? (fun k => (q * (10 : ℚ) ^ k).den = 1) with
    | some k =>
      let n := (q * (10 : ℚ) ^ k).num
      let m := n.natAbs
      let fs := toString (m % 10 ^ k)
      let pad := String.mk (List.replicate (k - fs.length) '0')
      (if n < 0 then "-" else "") ++ toString (m / 10 ^ k) ++ "." ++ pad ++ fs
    | none => toString q.num ++ "/" ++ toString q.den

mutual

/-- JS String(v) on a modelled field value. -/
def toStringJS : FieldValue → String
  | .nullV => "null"
  | .str s => s
  | .num q => numToString q
  | .boolV b => if b then "true" else "false"
  | .arr l => joinSepJS "," l
  | .wrapped _ => "[object Object]"
  | .obj => "[object Object]"

/-- JS Array.prototype.join with a separator: elements are stringified,
null and undefined render as the empty string. -/
def joinSepJS (sep : String) : List FieldValue → String
  | [] => ""
  | v :: rest =>
    let s := match v with
      | .nullV => ""
      | w => toStringJS w
    match rest with
    | [] => s
    | _ :: _ => s ++ sep ++ joinSepJS sep rest

end

/-- Numeric value of a list of decimal digit characters. -/
def digitsVal (l : List Char) : ℕ :=
  l.foldl (fun a c => a * 10 + (c.toNat - 48)) 0

/-- JS whitespace for String.prototype.trim (the characters that occur in
the modelled data). -/
def isWhitespaceJS (c : Char) : Bool :=
  c == ' ' || c == '\t' || c == '\n' || c == '\r'

/-- JS String.prototype.trim: strip leading and trailing whitespace. -/
def jsTrim (s : String) : String :=
  String.mk (((s.toList.dropWhile isWhitespaceJS).reverse.dropWhile isWhitespaceJS).reverse)

/-- Scanning phase of JS parseFloat on the strings this code feeds it:
leading whitespace, an optional sign, integer digits, an optional dot and
fraction digits; the result is the sign together with the two digit runs,
none when no digits were found (NaN).  Exponent and Infinity literals never
reach parseFloat here (price strings are first stripped down to digits and
dots). -/
def jsParseFloatParts (s : String) : Option (Bool × List Char × List Char) :=
  let cs := s.toList.dropWhile isWhitespaceJS
  let neg := match cs with
    | '-' :: _ => true
    | _ => false
  let cs2 := match cs with
    | '-' :: rest => rest
    | '+' :: rest => rest
    | _ => cs
  let ip := cs2.takeWhile Char.isDigit
  let rest := cs2.dropWhile Char.isDigit
  match rest with
  | '.' :: rest2 =>
    let fp := rest2.takeWhile Char.isDigit
    if ip.isEmpty && fp.isEmpty then none else some (neg, ip, fp)
  | _ =>
    if ip.isEmpty then none else some (neg, ip, [])

/-- Numeric value of the scanned parseFloat parts. -/
def jsParseFloat (s : String) : Option ℚ :=
  (jsParseFloatParts s).map (fun p =>
    (if p.1 then (-1 : ℚ) else 1) *
      ((digitsVal p.2.1 : ℚ) + (digitsVal p.2.2 : ℚ) / (10 : ℚ) ^ p.2.2.length))

/-- JS parseFloat(x.toFixed(2)): rounding to two decimals; toFixed picks the
larger candidate on ties, which is floor(x * 100 + 1/2) / 100. -/
def toFixed2 (q : ℚ) : ℚ :=
  (⌊q * 100 + 1 / 2⌋ : ℚ) / 100

/-- JS String.prototype.replace with the string pattern ",": replaces only
the first occurrence. -/
def replaceFirstComma : List Char → List Char
  | [] => []
  | c :: cs => if c = ',' then '.' :: cs else c :: replaceFirstComma cs

/-- Price conversion of wineDataValidationAndNormalization (wineList.js
lines 677-696): for strings, replace the first comma by a dot, strip all
characters other than digits and dots, then parseFloat; for other values,
parseFloat of the stringified value; finally round via toFixed(2).  none
models the NaN case that marks price_eur invalid. -/
def parsePrice (rawPrice : FieldValue) : Option ℚ :=
  let floatPrice := match rawPrice with
    | .str s =>
      jsParseFloat (String.mk ((replaceFirstComma s.toList).filter
        (fun c => c.isDigit || c == '.')))
    | v => jsParseFloat (toStringJS v)
  floatPrice.map toFixed2

/-- Property access on a JS object modelled as an association list in
insertion order; a missing key reads as undefined (nullV). -/
def getProp (fields : List (String × FieldValue)) (k : String) : FieldValue :=
  match fields.lookup k with
  | some v => v
  | none => .nullV

/-- Raw Airtable record as consumed by wineDataCleaner: fields is none when
the record has no fields object (or a non-object one). -/
structure RawEntry where
  id : FieldValue
  createdTime : FieldValue
  fields : Option (List (String × FieldValue))
  deriving DecidableEq

/-- Input of wineDataCleaner: either the records property is not an array
(covering a missing property and a non-object input) or it is a list of raw
entries. -/
inductive CleanerInput where
  | noRecords : CleanerInput
  | withRecords : List RawEntry → CleanerInput

/-- Cleaned wine record: id, createdTime and a whitelisted fields object. -/
structure WineRec where
  id : FieldValue
  createdTime : FieldValue
  fields : List (String × FieldValue)
  deriving DecidableEq

/-- Whitelist of preserved fields (KEEP_FIELDS in wineDataCleaner). -/
def KEEP_FIELDS : List String :=
  ["Vino + Annata",
   "Carta dei Vini",
   "Vino (from Wine Catalog)",
   "Lista Vitigni AI",
   "Produttore",
   "Alcolicità AI",
   "Affinamento AI",
   "Regione",
   "Zona",
   "Luogo di Produzione",
   "Tipologia",
   "Priorità Zona",
   "Prezzo In Carta Testo"]

/-- Per-record body of wineDataCleaner: keep only whitelisted keys that the
record's fields object actually has (copied in whitelist order, matching the
source's for-loop over KEEP_FIELDS); a missing fields object is treated as
empty. -/
def cleanEntry (r : RawEntry) : WineRec :=
  let fs := r.fields.getD []
  { id := r.id,
    createdTime := r.createdTime,
    fields := KEEP_FIELDS.filterMap (fun k => (fs.lookup k).map (fun v => (k, v))) }

/-- wineDataCleaner (wineList.js lines 54-98): a missing records array yields
the empty list, otherwise each record is cleaned independently.  The function
is total: malformed entries degrade to empty-fields records. -/
def wineDataCleaner : CleanerInput → List WineRec
  | .noRecords => []
  | .withRecords rs => rs.map cleanEntry

/-- C6: wineDataCleaner never throws (it is a total function of its modelled
input); an input lacking a records array yields an empty output; the output
length always equals the input records length; and a malformed entry (missing
or non-object fields) degrades to a record with empty fields that is still
present in the output rather than being dropped. -/
theorem wineDataCleaner_never_drops :
    wineDataCleaner .noRecords = [] ∧
    (∀ rs : List RawEntry, (wineDataCleaner (.withRecords rs)).length = rs.length) ∧
    (∀ rs : List RawEntry, ∀ r ∈ rs, r.fields = none →
      (cleanEntry r).fields = [] ∧ cleanEntry r ∈ wineDataCleaner (.withRecords rs)) := by
  refine ⟨rfl, fun rs => by simp [wineDataCleaner], fun rs r hr hf => ?_⟩
  constructor
  · simp [cleanEntry, hf]
  · simpa [wineDataCleaner] using List.mem_map_of_mem cleanEntry hr

/-- Concrete instantiation of wineDataCleaner_never_drops: a malformed entry
(fields missing) in a two-record input is preserved with empty fields. -/
theorem wineDataCleaner_never_drops_witness :
    (cleanEntry ⟨.str "rec2", .nullV, none⟩).fields = [] ∧
      cleanEntry ⟨.str "rec2", .nullV, none⟩ ∈
        wineDataCleaner (.withRecords
          [⟨.str "rec1", .nullV, some [("Tipologia", .str "Rosso")]⟩,
           ⟨.str "rec2", .nullV, none⟩]) :=
  wineDataCleaner_never_drops.2.2
    [⟨.str "rec1", .nullV, some [("Tipologia", .str "Rosso")]⟩,
     ⟨.str "rec2", .nullV, none⟩]
    ⟨.str "rec2", .nullV, none⟩ (by simp) rfl

/-- Collation token for the model of Intl collation with numeric: true.
Runs of decimal digits compare by numeric value; other characters compare by
their folded (case- and accent-insensitive) code point value. -/
inductive CTok where
  | num : ℕ → CTok
  | ch : ℕ → CTok
  deriving DecidableEq

/-- Case folding and accent folding for the Italian base-sensitivity
collation: ASCII lowercasing plus mapping of the common accented vowels to
their base letter.  This models sensitivity: base for the alphabets that
occur in the data. -/
def foldChar (c : Char) : ℕ :=
  let c := c.toLower
  match c with
  | 'à' | 'á' | 'â' | 'ä' | 'À' | 'Á' | 'Â' | 'Ä' => 'a'.toNat
  | 'è' | 'é' | 'ê' | 'ë' | 'È' | 'É' | 'Ê' | 'Ë' => 'e'.toNat
  | 'ì' | 'í' | 'î' | 'ï' | 'Ì' | 'Í' | 'Î' | 'Ï' => 'i'.toNat
  | 'ò' | 'ó' | 'ô' | 'ö' | 'Ò' | 'Ó' | 'Ô' | 'Ö' => 'o'.toNat
  | 'ù' | 'ú' | 'û' | 'ü' | 'Ù' | 'Ú' | 'Û' | 'Ü' => 'u'.toNat
  | c => c.toNat

/-- Tokenization of a string into collation tokens: maximal digit runs
become numeric tokens (the optional accumulator carries the value of the
digit run being read), every other character becomes a folded character
token. -/
def collKeyAux : List Char → Option ℕ → List CTok
  | [], some acc => [CTok.num acc]
  | [], none => []
  | c :: cs, some acc =>
    if c.isDigit then collKeyAux cs (some (acc * 10 + (c.toNat - 48)))
    else CTok.num acc :: CTok.ch (foldChar c) :: collKeyAux cs none
  | c :: cs, none =>
    if c.isDigit then collKeyAux cs (some (c.toNat - 48))
    else CTok.ch (foldChar c) :: collKeyAux cs none

/-- Collation key of a string. -/
def collKey (s : String) : List CTok := collKeyAux s.toList none

/-- Comparison of naturals as an Ordering. -/
def natCmp (m n : ℕ) : Ordering :=
  if m < n then .lt else if m = n then .eq else .gt

/-- Comparison of rationals as an Ordering. -/
def ratCmp (x y : ℚ) : Ordering :=
  if x < y then .lt else if x = y then .eq else .gt

/-- Comparison of collation tokens: numeric tokens sort before character
tokens (digits precede letters in the collation). -/
def ctokCmp : CTok → CTok → Ordering
  | .num m, .num n => natCmp m n
  | .num _, .ch _ => .lt
  | .ch _, .num _ => .gt
  | .ch m, .ch n => natCmp m n

/-- Lexicographic comparison of collation-token lists. -/
def listCmpC : List CTok → List CTok → Ordering
  | [], [] => .eq
  | [], _ :: _ => .lt
  | _ :: _, [] => .gt
  | a :: as, b :: bs => (ctokCmp a b).then (listCmpC as bs)

/-- Conversion of an Ordering to the sign value a JS comparator returns. -/
def ordQ : Ordering → ℚ
  | .lt => -1
  | .eq => 0
  | .gt => 1

/-- Model of s.localeCompare(t, "it", sensitivity base, numeric true): a
case- and accent-insensitive, numeric-substring-aware total comparison. -/
def localeCompareIt (s t : String) : ℚ :=
  ordQ (listCmpC (collKey s) (collKey t))

/-- normalizeSortValue of wineDataSorter (wineList.js lines 275-287):
null/undefined give the empty string, arrays are reduced to their first
element (an empty array reads as undefined, hence the empty string), wrapped
objects are unwrapped through their value property, objects without value
give the empty string, scalars stringify and trim. -/
def normalizeSortValue : FieldValue → String
  | .nullV => ""
  | .arr [] => ""
  | .arr (v :: _) => normalizeSortValue v
  | .wrapped v => normalizeSortValue v
  | .obj => ""
  | .str s => jsTrim s
  | .num q => jsTrim (numToString q)
  | .boolV b => (if b then "true" else "false")

/-- getField of wineDataSorter: extract a field and normalize it for
comparison. -/
def getField (r : WineRec) (k : String) : String :=
  normalizeSortValue (getProp r.fields k)

/-- getZoneId of wineDataSorter (wineList.js lines 322-334): the first
element of an array-valued Zona field, the string itself for a string field,
null otherwise (also when the field is falsy). -/
def getZoneId (r : WineRec) : Option FieldValue :=
  let zoneField := getProp r.fields "Zona"
  if !zoneField.truthy then none
  else
    match zoneField with
    | .arr (v :: _) => some v
    | .str s => some (.str s)
    | _ => none

/-- Zone descriptor at the type the source declares for zone mapping values
(getZoneMapping JSDoc: name/region/country string or null, priority number
or null). -/
structure ZoneDesc where
  id : String
  name : Option String
  region : Option String
  country : Option String
  priority : Option ℚ
  deriving DecidableEq

/-- Zone mapping: Airtable record id to zone descriptor, in insertion
order. -/
abbrev ZoneMapping := List (String × ZoneDesc)

/-- Resolution of a record's zone descriptor in the sorter: the zone id must
itself be truthy (aZoneId ? zoneMapping[aZoneId] : null); property access on
the mapping stringifies the key as JS does. -/
def resolveZone (m : ZoneMapping) (r : WineRec) : Option ZoneDesc :=
  match getZoneId r with
  | none => none
  | some zid => if zid.truthy then m.lookup (toStringJS zid) else none

/-- Priority of a record's resolved zone, when non-null. -/
def zonePriority (m : ZoneMapping) (r : WineRec) : Option ℚ :=
  (resolveZone m r).bind (fun z => z.priority)

/-- JS (priority || 999): a falsy (zero) priority is replaced by 999 before
the subtraction in the comparator. -/
def coercePrio (p : ℚ) : ℚ := if p = 0 then 999 else p

/-- Resolved zone name with the (name || "") fallback of the comparator. -/
def zoneNameOrEmpty (m : ZoneMapping) (r : WineRec) : String :=
  match (resolveZone m r).bind (fun z => z.name) with
  | some s => if s = "" then "" else s
  | none => ""

/-- Zone-priority block of the comparator (wineList.js lines 384-411): some
v models an early return from the block, none the fall-through to the
alphabetical Zona comparison.  With both priorities non-null the comparator
subtracts the (p || 999)-coerced priorities and, on a tie, compares resolved
zone names; with exactly one priority present that side sorts first; with
neither, the block falls through. -/
def zoneBlockCmp (zm : Option ZoneMapping) (a b : WineRec) : Option ℚ :=
  match zm with
  | none => none
  | some m =>
    match zonePriority m a, zonePriority m b with
    | some pa, some pb =>
      let priorityCompare := coercePrio pa - coercePrio pb
      if priorityCompare ≠ 0 then some priorityCompare
      else
        let nameCompare := localeCompareIt (zoneNameOrEmpty m a) (zoneNameOrEmpty m b)
        if nameCompare ≠ 0 then some nameCompare else none
    | some _, none => some (-1)
    | none, some _ => some 1
    | none, none => none

/-- Tie-break string of the comparator: the normalized Vino + Annata value
or, when empty, String(id || ""). -/
def tieBreakStr (r : WineRec) : String :=
  let n := getField r "Vino + Annata"
  if n ≠ "" then n else (if r.id.truthy then toStringJS r.id else "")

/-- Tail of the comparator after the zone-priority block (wineList.js lines
413-434): alphabetical Zona comparison, then Produttore, then the
Vino + Annata / id tie-break. -/
def compareTail (a b : WineRec) : ℚ :=
  let zonaCompare := localeCompareIt (getField a "Zona") (getField b "Zona")
  if zonaCompare ≠ 0 then zonaCompare else
  let produttoreCompare := localeCompareIt (getField a "Produttore") (getField b "Produttore")
  if produttoreCompare ≠ 0 then produttoreCompare else
  localeCompareIt (tieBreakStr a) (tieBreakStr b)

/-- Comparator of wineDataSorter (wineList.js lines 364-435): Tipologia,
then Regione, then the zone step (priority block with mapping, alphabetical
Zona fallback), then Produttore, then the Vino + Annata / id tie-break. -/
def compareWine (zm : Option ZoneMapping) (a b : WineRec) : ℚ :=
  let tipologiaCompare := localeCompareIt (getField a "Tipologia") (getField b "Tipologia")
  if tipologiaCompare ≠ 0 then tipologiaCompare else
  let regioneCompare := localeCompareIt (getField a "Regione") (getField b "Regione")
  if regioneCompare ≠ 0 then regioneCompare else
  match zoneBlockCmp zm a b with
  | some v => v
  | none => compareTail a b

/-- Sort relation induced by the comparator: a sorts no later than b.  An
ECMAScript-conformant Array.prototype.sort is stable and, for a consistent
comparator, produces the unique stable order; insertionSort below realizes
it. -/
def sortLe (zm : Option ZoneMapping) (a b : WineRec) : Prop :=
  compareWine zm a b ≤ 0

instance (zm : Option ZoneMapping) : DecidableRel (sortLe zm) := fun a b =>
  inferInstanceAs (Decidable (compareWine zm a b ≤ 0))

/-- wineDataSorter (wineList.js lines 254-441): an empty (or absent) input
yields the empty list, otherwise a stable sort of a copy of the input by the
comparator. -/
def wineDataSorter (data : List WineRec) (zm : Option ZoneMapping) : List WineRec :=
  match data with
  | [] => []
  | _ :: _ => data.insertionSort (sortLe zm)

/-- Element mapping inside extractValue for array fields (wineList.js lines
525-530): an object item whose value property is truthy is replaced by that
value, every other item is kept. -/
def extractItem : FieldValue → FieldValue
  | .wrapped v => if v.truthy then v else .wrapped v
  | item => item

/-- extractValue of wineDataValidationAndNormalization (wineList.js lines
517-539): falsy fields give null, strings pass through, arrays are mapped
and joined with a comma and space, wrapped objects are unwrapped, all other
values pass through. -/
def extractValue (field : FieldValue) : FieldValue :=
  if !field.truthy then .nullV
  else
    match field with
    | .str s => .str s
    | .arr l => .str (joinSepJS ", " (l.map extractItem))
    | .wrapped v => v
    | f => f

/-- getZoneName of wineDataValidationAndNormalization (wineList.js lines
572-589), specialized to its reachable calls (the caller has already checked
the zone id is truthy, so the throw on a falsy id cannot fire): without a
usable mapping the raw id is returned; otherwise the mapped name, falling
back to the raw id when the entry or its name is missing or empty. -/
def getZoneName (zm : Option ZoneMapping) (zoneId : FieldValue) : FieldValue :=
  match zm with
  | none => zoneId
  | some m =>
    match (m.lookup (toStringJS zoneId)).bind (fun z => z.name) with
    | some s => if s = "" then zoneId else .str s
    | none => zoneId

/-- Producer lookup: models the async getEnotecaDataById call; some gives
the fields of the producer record, none models a rejected lookup (the catch
branch that marks Produttore invalid). -/
abbrev ProducerLookup := FieldValue → Option (List (String × FieldValue))

/-- Normalized output record of the validator (currentRecord in the source):
every property is optional because the source only assigns it when the field
passes its check; price_eur is some none when the source assigns null after
a failed conversion. -/
structure CurRec where
  name : Option FieldValue
  producer : Option FieldValue
  grapes : Option FieldValue
  production_location : Option FieldValue
  zone : Option FieldValue
  aging : Option FieldValue
  price_eur : Option (Option ℚ)
  abv : Option FieldValue
  category : Option FieldValue
  region : Option FieldValue
  deriving DecidableEq

/-- Outcome of processing one record in the validator loop. -/
structure PRes where
  current : CurRec
  invalidFields : List String
  warningFields : List String
  deriving DecidableEq

/-- Loop body of wineDataValidationAndNormalization (wineList.js lines
599-757) for one record: each field block contributes its assignment to
currentRecord and its pushes to invalidFields / warningFields; the pushed
names are concatenated in the source's push order (name, producer, zone,
price, category, region; grapes, production location, aging, abv). -/
def processRecord (lookup : ProducerLookup) (zm : Option ZoneMapping)
    (record : WineRec) : PRes :=
  let nameF := getProp record.fields "Vino + Annata"
  let prodF := getProp record.fields "Produttore"
  let grapesValue := extractValue (getProp record.fields "Lista Vitigni AI")
  let productionLocationValue := extractValue (getProp record.fields "Luogo di Produzione")
  let zoneF := getProp record.fields "Zona"
  let agingValue := extractValue (getProp record.fields "Affinamento AI")
  let priceF := getProp record.fields "Prezzo In Carta Testo"
  let abvValue := extractValue (getProp record.fields "Alcolicità AI")
  let catF := getProp record.fields "Tipologia"
  let regF := getProp record.fields "Regione"
  { current :=
      ⟨(if nameF.truthy then some nameF else none),
       (if prodF.truthy then
          match lookup prodF with
          | some pfields => some (getProp pfields "Nome")
          | none => none
        else none),
       (if grapesValue.truthy then some grapesValue else none),
       (if productionLocationValue.truthy then some productionLocationValue else none),
       (if zoneF.truthy then some (getZoneName zm zoneF) else none),
       (if agingValue.truthy then some agingValue else none),
       (if priceF.truthy then
          match parsePrice priceF with
          | some p => some (some p)
          | none => some none
        else none),
       (if abvValue.truthy then some abvValue else none),
       (if catF.truthy then some catF else none),
       (if regF.truthy then some regF else none)⟩,
    invalidFields :=
      (if !nameF.truthy then ["Vino + Annata"] else []) ++
      (if !prodF.truthy then ["Produttore"]
       else match lookup prodF with
         | some _ => []
         | none => ["Produttore"]) ++
      (if !zoneF.truthy then ["Zona"] else []) ++
      (if !priceF.truthy then ["Prezzo In Carta Testo"]
       else match parsePrice priceF with
         | some _ => []
         | none => ["price_eur"]) ++
      (if !catF.truthy then ["Tipologia"] else []) ++
      (if !regF.truthy then ["Regione"] else []),
    warningFields :=
      (if !grapesValue.truthy then ["Lista Vitigni AI"] else []) ++
      (if !productionLocationValue.truthy then ["Luogo di Produzione"] else []) ++
      (if !agingValue.truthy then ["Affinamento AI"] else []) ++
      (if !abvValue.truthy then ["Alcolicità AI"] else []) }

/-- Invalid-record entry of the classification result. -/
structure InvalidEntry where
  id : FieldValue
  invalidFields : List String
  deriving DecidableEq

/-- Warning-record entry of the classification result. -/
structure WarnEntry where
  id : FieldValue
  warningFields : List String
  deriving DecidableEq

/-- Classification result of the validator. -/
structure VResult where
  validRecords : List CurRec
  warningRecords : List WarnEntry
  invalidRecords : List InvalidEntry
  categories : List String
  deriving DecidableEq

/-- Category collection step (wineList.js lines 736-742): the category is
pushed only when it is a truthy string not already collected. -/
def pushCategory (cats : List String) (c : Option FieldValue) : List String :=
  match c with
  | some (.str s) => if s ≠ "" then (if s ∈ cats then cats else cats ++ [s]) else cats
  | _ => cats

/-- Classification step (wineList.js lines 744-756): a record with invalid
fields goes to invalidRecords, else with warning fields to warningRecords,
else its currentRecord goes to validRecords; the category was collected just
before, independently of the bucket. -/
def stepValidate (lookup : ProducerLookup) (zm : Option ZoneMapping)
    (acc : VResult) (record : WineRec) : VResult :=
  let p := processRecord lookup zm record
  let cats := pushCategory acc.categories p.current.category
  if p.invalidFields ≠ [] then
    ⟨acc.validRecords, acc.warningRecords,
     acc.invalidRecords ++ [⟨record.id, p.invalidFields⟩], cats⟩
  else if p.warningFields ≠ [] then
    ⟨acc.validRecords, acc.warningRecords ++ [⟨record.id, p.warningFields⟩],
     acc.invalidRecords, cats⟩
  else
    ⟨acc.validRecords ++ [p.current], acc.warningRecords, acc.invalidRecords, cats⟩

/-- wineDataValidationAndNormalization (wineList.js lines 514-780): the
records are processed sequentially; the outer try/catch never fires in the
model because the only interior throw (the producer lookup) is caught in the
loop and the getZoneName throw is unreachable at its call site. -/
def wineDataValidationAndNormalization (lookup : ProducerLookup)
    (zm : Option ZoneMapping) (data : List WineRec) : VResult :=
  data.foldl (stepValidate lookup zm) ⟨[], [], [], []⟩

/-- Names of the six required fields, each paired with the name the source
pushes when the field is missing (the source pushes the field name itself). -/
def requiredFieldNames : List String :=
  ["Vino + Annata", "Produttore", "Zona", "Prezzo In Carta Testo", "Tipologia", "Regione"]

/-- Required fields of a record that are missing (falsy), by pushed name. -/
def missingRequired (r : WineRec) : List String :=
  requiredFieldNames.filter (fun f => !(getProp r.fields f).truthy)

/-- Category value a record contributes to the categories list: its
Tipologia field when that is a non-empty string. -/
def catString (r : WineRec) : Option String :=
  match getProp r.fields "Tipologia" with
  | .str s => if s ≠ "" then some s else none
  | _ => none

/-- First-seen-order de-duplication of a list of strings. -/
def dedupFirstSeen (l : List String) : List String :=
  l.foldl (fun acc s => if s ∈ acc then acc else acc ++ [s]) []

/-- Record classified invalid: it has at least one invalid field. -/
def recInvalid (lookup : ProducerLookup) (zm : Option ZoneMapping) (r : WineRec) : Bool :=
  !(processRecord lookup zm r).invalidFields.isEmpty

/-- Record classified warning: no invalid field but at least a warning. -/
def recWarning (lookup : ProducerLookup) (zm : Option ZoneMapping) (r : WineRec) : Bool :=
  (processRecord lookup zm r).invalidFields.isEmpty &&
    !(processRecord lookup zm r).warningFields.isEmpty

/-- Record classified valid: neither invalid fields nor warnings. -/
def recValid (lookup : ProducerLookup) (zm : Option ZoneMapping) (r : WineRec) : Bool :=
  (processRecord lookup zm r).invalidFields.isEmpty &&
    (processRecord lookup zm r).warningFields.isEmpty

theorem stepValidate_proj (lookup : ProducerLookup) (zm : Option ZoneMapping)
    (acc : VResult) (r : WineRec) :
    stepValidate lookup zm acc r =
      ⟨acc.validRecords ++
         (if recValid lookup zm r then [(processRecord lookup zm r).current] else []),
       acc.warningRecords ++
         (if recWarning lookup zm r
          then [⟨r.id, (processRecord lookup zm r).warningFields⟩] else []),
       acc.invalidRecords ++
         (if recInvalid lookup zm r
          then [⟨r.id, (processRecord lookup zm r).invalidFields⟩] else []),
       pushCategory acc.categories (processRecord lookup zm r).current.category⟩ := by
  rw [stepValidate]
  by_cases h1 : (processRecord lookup zm r).invalidFields = [] <;>
    by_cases h2 : (processRecord lookup zm r).warningFields = [] <;>
      simp [h1, h2, recValid, recWarning, recInvalid, List.isEmpty_iff]

theorem validate_foldl (lookup : ProducerLookup) (zm : Option ZoneMapping)
    (data : List WineRec) (acc : VResult) :
    data.foldl (stepValidate lookup zm) acc =
      ⟨acc.validRecords ++
         (data.filter (recValid lookup zm)).map (fun r => (processRecord lookup zm r).current),
       acc.warningRecords ++
         (data.filter (recWarning lookup zm)).map
           (fun r => ⟨r.id, (processRecord lookup zm r).warningFields⟩),
       acc.invalidRecords ++
         (data.filter (recInvalid lookup zm)).map
           (fun r => ⟨r.id, (processRecord lookup zm r).invalidFields⟩),
       data.foldl
         (fun cats r => pushCategory cats (processRecord lookup zm r).current.category)
         acc.categories⟩ := by
  induction data generalizing acc with
  | nil => simp
  | cons r rest ih =>
    rw [List.foldl_cons, ih, stepValidate_proj]
    simp only [VResult.mk.injEq]
    refine ⟨?_, ?_, ?_, rfl⟩ <;>
      by_cases h1 : recValid lookup zm r <;>
        by_cases h2 : recWarning lookup zm r <;>
          by_cases h3 : recInvalid lookup zm r <;>
            simp [h1, h2, h3, List.filter_cons]

theorem missingRequired_sub_invalidFields (lookup : ProducerLookup)
    (zm : Option ZoneMapping) (r : WineRec) :
    ∀ f ∈ missingRequired r, f ∈ (processRecord lookup zm r).invalidFields := by
  intro f hf
  rw [missingRequired, List.mem_filter] at hf
  obtain ⟨hmem, hfalse⟩ := hf
  simp only [requiredFieldNames, List.mem_cons, List.not_mem_nil, or_false] at hmem
  simp only [Bool.not_eq_true'] at hfalse
  rcases hmem with h | h | h | h | h | h <;> subst h <;>
    simp [processRecord, hfalse]

theorem bucket_length_sum (lookup : ProducerLookup) (zm : Option ZoneMapping)
    (l : List WineRec) :
    (l.filter (recValid lookup zm)).length + (l.filter (recWarning lookup zm)).length +
      (l.filter (recInvalid lookup zm)).length = l.length := by
  induction l with
  | nil => rfl
  | cons r rest ih =>
    by_cases hi : (processRecord lookup zm r).invalidFields.isEmpty <;>
      by_cases hw : (processRecord lookup zm r).warningFields.isEmpty <;>
        simp [List.filter_cons, recValid, recWarning, recInvalid, hi, hw] <;>
          omega

/-- C1: wineDataValidationAndNormalization places each record in exactly one
of the three output buckets (invalidRecords when it has invalid fields, else
warningRecords when it has warning fields, else validRecords), so the three
bucket lengths sum to the input length; and every record missing a required
field appears in invalidRecords under its id with that field named. -/
theorem wineDataValidationAndNormalization_partition
    (lookup : ProducerLookup) (zm : Option ZoneMapping) (data : List WineRec) :
    (wineDataValidationAndNormalization lookup zm data).invalidRecords =
        (data.filter (recInvalid lookup zm)).map
          (fun r => ⟨r.id, (processRecord lookup zm r).invalidFields⟩) ∧
    (wineDataValidationAndNormalization lookup zm data).warningRecords =
        (data.filter (recWarning lookup zm)).map
          (fun r => ⟨r.id, (processRecord lookup zm r).warningFields⟩) ∧
    (wineDataValidationAndNormalization lookup zm data).validRecords =
        (data.filter (recValid lookup zm)).map
          (fun r => (processRecord lookup zm r).current) ∧
    ((wineDataValidationAndNormalization lookup zm data).validRecords.length +
      (wineDataValidationAndNormalization lookup zm data).warningRecords.length +
      (wineDataValidationAndNormalization lookup zm data).invalidRecords.length
        = data.length) ∧
    (∀ r ∈ data, ∀ f ∈ missingRequired r,
      ∃ e ∈ (wineDataValidationAndNormalization lookup zm data).invalidRecords,
        e.id = r.id ∧ f ∈ e.invalidFields) := by
  have hfold := validate_foldl lookup zm data ⟨[], [], [], []⟩
  rw [wineDataValidationAndNormalization, hfold]
  refine ⟨rfl, rfl, rfl, ?_, ?_⟩
  · simpa using bucket_length_sum lookup zm data
  · intro r hr f hf
    refine ⟨⟨r.id, (processRecord lookup zm r).invalidFields⟩, ?_,
      rfl, missingRequired_sub_invalidFields lookup zm r f hf⟩
    have hne : (processRecord lookup zm r).invalidFields ≠ [] := by
      intro h0
      have hmem := missingRequired_sub_invalidFields lookup zm r f hf
      rw [h0] at hmem
      exact List.not_mem_nil f hmem
    refine List.mem_append_right _ (List.mem_map_of_mem _ (List.mem_filter.2 ⟨hr, ?_⟩))
    simp [recInvalid, List.isEmpty_iff, hne]

/-- Record used in witnesses: a record whose Prezzo In Carta Testo field is
missing entirely while the other required fields are present. -/
def recMissingPrice : WineRec :=
  ⟨.str "recMP", .nullV,
   [("Vino + Annata", .str "Barolo 2019"), ("Produttore", .str "p1"),
    ("Zona", .str "z1"), ("Tipologia", .str "Rosso"), ("Regione", .str "Piemonte")]⟩

/-- Instantiation of the partition theorem: a record missing the price field
lands in invalidRecords with "Prezzo In Carta Testo" named. -/
theorem wineDataValidationAndNormalization_partition_witness :
    ∃ e ∈ (wineDataValidationAndNormalization (fun _ => none) none
        [recMissingPrice]).invalidRecords,
      e.id = recMissingPrice.id ∧ "Prezzo In Carta Testo" ∈ e.invalidFields :=
  (wineDataValidationAndNormalization_partition (fun _ => none) none
      [recMissingPrice]).2.2.2.2
    recMissingPrice (by decide) "Prezzo In Carta Testo" (by decide)

/-- Producer lookup that always succeeds, used in concrete examples. -/
def lookupOk : ProducerLookup := fun _ => some [("Nome", .str "Cantina Uno")]

/-- Fully populated record with price text "12,50 €". -/
def recPriceA : WineRec :=
  ⟨.str "rpa", .nullV,
   [("Vino + Annata", .str "Barolo 2019"), ("Produttore", .str "p1"),
    ("Lista Vitigni AI", .str "Nebbiolo"), ("Luogo di Produzione", .str "La Morra"),
    ("Zona", .str "zz"), ("Affinamento AI", .str "24 mesi"),
    ("Prezzo In Carta Testo", .str "12,50 €"), ("Alcolicità AI", .str "14%"),
    ("Tipologia", .str "Rosso"), ("Regione", .str "Piemonte")]⟩

/-- Fully populated record with price text "1234.5". -/
def recPriceB : WineRec :=
  ⟨.str "rpb", .nullV,
   [("Vino + Annata", .str "Barbaresco 2018"), ("Produttore", .str "p1"),
    ("Lista Vitigni AI", .str "Nebbiolo"), ("Luogo di Produzione", .str "Barbaresco"),
    ("Zona", .str "zz"), ("Affinamento AI", .str "36 mesi"),
    ("Prezzo In Carta Testo", .str "1234.5"), ("Alcolicità AI", .str "14.5%"),
    ("Tipologia", .str "Rosso"), ("Regione", .str "Piemonte")]⟩

/-- Fully populated record with the unparseable price text "abc". -/
def recPriceC : WineRec :=
  ⟨.str "rpc", .nullV,
   [("Vino + Annata", .str "Dolcetto 2022"), ("Produttore", .str "p1"),
    ("Lista Vitigni AI", .str "Dolcetto"), ("Luogo di Produzione", .str "Alba"),
    ("Zona", .str "zz"), ("Affinamento AI", .str "6 mesi"),
    ("Prezzo In Carta Testo", .str "abc"), ("Alcolicità AI", .str "12%"),
    ("Tipologia", .str "Rosso"), ("Regione", .str "Piemonte")]⟩

theorem parsePrice_comma_euro : parsePrice (.str "12,50 €") = some (25 / 2 : ℚ) := by
  have h : jsParseFloatParts (String.mk ((replaceFirstComma "12,50 €".toList).filter
      (fun c => c.isDigit || c == '.'))) = some (false, ['1', '2'], ['5', '0']) := by decide
  have d1 : digitsVal ['1', '2'] = 12 := by decide
  have d2 : digitsVal ['5', '0'] = 50 := by decide
  rw [parsePrice]
  simp only [jsParseFloat, h, Option.map_some, d1, d2]
  norm_num [toFixed2, d1, d2]

theorem parsePrice_plain_decimal : parsePrice (.str "1234.5") = some (2469 / 2 : ℚ) := by
  have h : jsParseFloatParts (String.mk ((replaceFirstComma "1234.5".toList).filter
      (fun c => c.isDigit || c == '.'))) = some (false, ['1', '2', '3', '4'], ['5']) := by
    decide
  have d1 : digitsVal ['1', '2', '3', '4'] = 1234 := by decide
  have d2 : digitsVal ['5'] = 5 := by decide
  rw [parsePrice]
  simp only [jsParseFloat, h, Option.map_some, d1, d2]
  norm_num [toFixed2, d1, d2]

theorem parsePrice_abc : parsePrice (.str "abc") = none := by decide

/-- C4: price parsing in the validator: "12,50 €" yields price_eur 12.50
(also visible on the resulting valid record), "1234.5" yields 1234.5, and
"abc" yields a null price_eur together with the invalid flag price_eur on
the record. -/
theorem wineDataValidationAndNormalization_price_examples :
    ((processRecord lookupOk none recPriceA).current.price_eur = some (some (25 / 2 : ℚ))) ∧
    ((wineDataValidationAndNormalization lookupOk none [recPriceA]).validRecords.map
        (fun c => c.price_eur) = [some (some (25 / 2 : ℚ))]) ∧
    ((processRecord lookupOk none recPriceB).current.price_eur = some (some (2469 / 2 : ℚ))) ∧
    ((processRecord lookupOk none recPriceC).current.price_eur = some none) ∧
    ("price_eur" ∈ (processRecord lookupOk none recPriceC).invalidFields) := by
  have hfa : getProp recPriceA.fields "Prezzo In Carta Testo" = .str "12,50 €" := by decide
  have hfb : getProp recPriceB.fields "Prezzo In Carta Testo" = .str "1234.5" := by decide
  have hInv : (processRecord lookupOk none recPriceA).invalidFields = [] := by
    simp [processRecord, hfa, parsePrice_comma_euro, lookupOk]
    decide
  have hWarn : (processRecord lookupOk none recPriceA).warningFields = [] := by decide
  have hPrice : (processRecord lookupOk none recPriceA).current.price_eur
      = some (some (25 / 2 : ℚ)) := by
    simp [processRecord, hfa, parsePrice_comma_euro]
    decide
  refine ⟨hPrice, ?_, ?_, by decide, by decide⟩
  · rw [wineDataValidationAndNormalization, List.foldl_cons, List.foldl_nil,
      stepValidate_proj]
    simp [recValid, recWarning, recInvalid, hInv, hWarn, hPrice]
  · simp [processRecord, hfb, parsePrice_plain_decimal]
    decide

/-- Record whose only populated field is its category. -/
def recOnlyCategory : WineRec := ⟨.str "rc5", .nullV, [("Tipologia", .str "Rosso")]⟩

/-- C5 counterexample: a record that ends up in invalidRecords (and not in
validRecords) still contributes its Tipologia value to categories, so
categories does not collect only the valid records' category values. -/
theorem wineDataValidationAndNormalization_categories_counterexample :
    (wineDataValidationAndNormalization (fun _ => none) none [recOnlyCategory]).validRecords
        = [] ∧
    (wineDataValidationAndNormalization (fun _ => none) none
        [recOnlyCategory]).invalidRecords.length = 1 ∧
    (wineDataValidationAndNormalization (fun _ => none) none [recOnlyCategory]).categories
        = ["Rosso"] := by
  decide

/-- C5 amended: categories contains exactly the Tipologia values that are
non-empty strings across all processed records, whether those records end up
valid, warning or invalid, de-duplicated in first-seen order. -/
theorem wineDataValidationAndNormalization_categories_all_records
    (lookup : ProducerLookup) (zm : Option ZoneMapping) (data : List WineRec) :
    (wineDataValidationAndNormalization lookup zm data).categories
      = dedupFirstSeen (data.filterMap catString) := by
  have h1 : (wineDataValidationAndNormalization lookup zm data).categories =
      data.foldl
        (fun cats r => pushCategory cats (processRecord lookup zm r).current.category)
        [] := by
    rw [wineDataValidationAndNormalization, validate_foldl]
  have key : ∀ (cats : List String) (r : WineRec),
      pushCategory cats (processRecord lookup zm r).current.category =
        (catString r).elim cats (fun s => if s ∈ cats then cats else cats ++ [s]) := by
    intro cats r
    have hcat : (processRecord lookup zm r).current.category =
        (if (getProp r.fields "Tipologia").truthy
         then some (getProp r.fields "Tipologia") else none) := rfl
    rw [hcat, catString]
    rcases hv : getProp r.fields "Tipologia" with _ | s | q | b | l | w | _ <;>
      simp [pushCategory, FieldValue.truthy]
    by_cases hs : s = "" <;> simp [hs, pushCategory]
  have gen : ∀ (l : List WineRec) (acc : List String),
      l.foldl
          (fun cats r => pushCategory cats (processRecord lookup zm r).current.category)
          acc =
        (l.filterMap catString).foldl
          (fun acc s => if s ∈ acc then acc else acc ++ [s]) acc := by
    intro l
    induction l with
    | nil => intro acc; rfl
    | cons r rest ih =>
      intro acc
      rw [List.foldl_cons, key, List.filterMap_cons]
      rcases hc : catString r with _ | s
      · simpa using ih acc
      · simpa using ih (if s ∈ acc then acc else acc ++ [s])
  rw [h1, gen, dedupFirstSeen]

/-- C10: the two failure modes of the price field report different labels:
a missing or empty Prezzo In Carta Testo appends the source field name
"Prezzo In Carta Testo" to the record's invalid fields (and not price_eur),
while a present but unparseable price appends the normalized name
"price_eur" (and not the source field name); in both cases the entry reaches
invalidRecords under the record's id. -/
theorem price_invalid_field_labels (lookup : ProducerLookup) (zm : Option ZoneMapping)
    (data : List WineRec) (r : WineRec) (hr : r ∈ data) :
    (¬ (getProp r.fields "Prezzo In Carta Testo").truthy →
      (⟨r.id, (processRecord lookup zm r).invalidFields⟩ : InvalidEntry) ∈
          (wineDataValidationAndNormalization lookup zm data).invalidRecords ∧
        "Prezzo In Carta Testo" ∈ (processRecord lookup zm r).invalidFields ∧
        "price_eur" ∉ (processRecord lookup zm r).invalidFields) ∧
    ((getProp r.fields "Prezzo In Carta Testo").truthy →
      parsePrice (getProp r.fields "Prezzo In Carta Testo") = none →
      (⟨r.id, (processRecord lookup zm r).invalidFields⟩ : InvalidEntry) ∈
          (wineDataValidationAndNormalization lookup zm data).invalidRecords ∧
        "price_eur" ∈ (processRecord lookup zm r).invalidFields ∧
        "Prezzo In Carta Testo" ∉ (processRecord lookup zm r).invalidFields) := by
  have hbucket : (processRecord lookup zm r).invalidFields ≠ [] →
      (⟨r.id, (processRecord lookup zm r).invalidFields⟩ : InvalidEntry) ∈
        (wineDataValidationAndNormalization lookup zm data).invalidRecords := by
    intro hne
    rw [(wineDataValidationAndNormalization_partition lookup zm data).1]
    refine List.mem_map_of_mem _ (List.mem_filter.2 ⟨hr, ?_⟩)
    simp [recInvalid, List.isEmpty_iff, hne]
  constructor
  · intro hmiss
    rw [Bool.not_eq_true] at hmiss
    have h1 : "Prezzo In Carta Testo" ∈ (processRecord lookup zm r).invalidFields := by
      simp [processRecord, hmiss]
    have h2 : "price_eur" ∉ (processRecord lookup zm r).invalidFields := by
      simp [processRecord, hmiss]
      split
      · simp
      · split <;> simp
    exact ⟨hbucket (fun h0 => by simp [h0] at h1), h1, h2⟩
  · intro htr hparse
    have h1 : "price_eur" ∈ (processRecord lookup zm r).invalidFields := by
      simp [processRecord, htr, hparse]
    have h2 : "Prezzo In Carta Testo" ∉ (processRecord lookup zm r).invalidFields := by
      simp [processRecord, htr, hparse]
      split
      · simp
      · split <;> simp
    exact ⟨hbucket (fun h0 => by simp [h0] at h1), h1, h2⟩

/-- Instantiation of the label theorem at two concrete records: one missing
the price entirely, one with the unparseable price "abc". -/
theorem price_invalid_field_labels_witness :
    ("Prezzo In Carta Testo" ∈
        (processRecord (fun _ => none) none recMissingPrice).invalidFields ∧
      "price_eur" ∉ (processRecord (fun _ => none) none recMissingPrice).invalidFields) ∧
    ("price_eur" ∈ (processRecord lookupOk none recPriceC).invalidFields ∧
      "Prezzo In Carta Testo" ∉ (processRecord lookupOk none recPriceC).invalidFields) :=
  ⟨((price_invalid_field_labels (fun _ => none) none [recMissingPrice] recMissingPrice
        (by decide)).1 (by decide)).2,
   ((price_invalid_field_labels lookupOk none [recPriceC] recPriceC
        (by decide)).2 (by decide) (by decide)).2⟩

/-- Sign of a JS comparator value as an Ordering. -/
def ordOfQ (q : ℚ) : Ordering :=
  if q < 0 then .lt else if q = 0 then .eq else .gt

/-- Sort key of a record under the comparator: the comparator behaves as the
lexicographic comparison of these components (records with a resolved
priority class before records without, then coerced priority, then resolved
zone name, then the raw-field collation keys). -/
structure RKey where
  tip : List CTok
  reg : List CTok
  zcls : ℕ
  zprio : ℚ
  zname : List CTok
  zona : List CTok
  prod : List CTok
  tie : List CTok

def recKey (zm : Option ZoneMapping) (r : WineRec) : RKey :=
  let pr : Option ℚ := match zm with
    | none => none
    | some m => zonePriority m r
  { tip := collKey (getField r "Tipologia"),
    reg := collKey (getField r "Regione"),
    zcls := match pr with
      | some _ => 0
      | none => 1,
    zprio := match pr with
      | some p => coercePrio p
      | none => 0,
    zname := match zm, pr with
      | some m, some _ => collKey (zoneNameOrEmpty m r)
      | _, _ => [],
    zona := collKey (getField r "Zona"),
    prod := collKey (getField r "Produttore"),
    tie := collKey (tieBreakStr r) }

def rkeyCmp (x y : RKey) : Ordering :=
  (listCmpC x.tip y.tip).then ((listCmpC x.reg y.reg).then ((natCmp x.zcls y.zcls).then
    ((ratCmp x.zprio y.zprio).then ((listCmpC x.zname y.zname).then
      ((listCmpC x.zona y.zona).then ((listCmpC x.prod y.prod).then
        (listCmpC x.tie y.tie)))))))

/-- Lawful comparison: swap antisymmetry, strong congruence on equal
outcomes, transitivity of strict outcomes — the properties of a comparison
induced by a total preorder. -/
structure IsLawCmp {α : Type} (f : α → α → Ordering) : Prop where
  swap_eq : ∀ a b, (f a b).swap = f b a
  congr_left : ∀ a b c, f a b = .eq → f b c = f a c
  lt_trans : ∀ a b c, f a b = .lt → f b c = .lt → f a c = .lt

theorem thenSwap (p q : Ordering) : (p.then q).swap = p.swap.then q.swap := by
  cases p <;> cases q <;> rfl

theorem then_eq_lt_iff (p q : Ordering) :
    p.then q = .lt ↔ p = .lt ∨ (p = .eq ∧ q = .lt) := by
  cases p <;> cases q <;> simp [Ordering.then]

theorem then_eq_eq_iff (p q : Ordering) : p.then q = .eq ↔ p = .eq ∧ q = .eq := by
  cases p <;> cases q <;> simp [Ordering.then]

theorem IsLawCmp.congr_right {α : Type} {f : α → α → Ordering} (hf : IsLawCmp f)
    (a b c : α) (h : f b c = .eq) : f a b = f a c := by
  have hcb : f c b = .eq := by
    have hs := hf.swap_eq b c
    rw [h] at hs
    exact hs.symm
  have h2 := hf.congr_left c b a hcb
  have h3 := hf.swap_eq b a
  have h4 := hf.swap_eq c a
  rw [← h3, ← h4, h2]

theorem IsLawCmp.ne_gt_trans {α : Type} {f : α → α → Ordering} (hf : IsLawCmp f)
    (a b c : α) (h1 : f a b ≠ .gt) (h2 : f b c ≠ .gt) : f a c ≠ .gt := by
  cases hab : f a b with
  | gt => exact absurd hab h1
  | eq => rw [← hf.congr_left a b c hab]; exact h2
  | lt =>
    cases hbc : f b c with
    | gt => exact absurd hbc h2
    | eq => rw [← hf.congr_right a b c hbc]; simp [hab]
    | lt => simp [hf.lt_trans a b c hab hbc]

theorem lawCmp_then {α : Type} {f g : α → α → Ordering}
    (hf : IsLawCmp f) (hg : IsLawCmp g) :
    IsLawCmp (fun a b => (f a b).then (g a b)) := by
  refine ⟨fun a b => ?_, fun a b c h => ?_, fun a b c h1 h2 => ?_⟩
  · rw [thenSwap, hf.swap_eq, hg.swap_eq]
  · rw [then_eq_eq_iff] at h
    rw [← hf.congr_left a b c h.1, ← hg.congr_left a b c h.2]
  · rw [then_eq_lt_iff] at h1 h2 ⊢
    rcases h1 with h1 | ⟨h1e, h1g⟩ <;> rcases h2 with h2 | ⟨h2e, h2g⟩
    · exact Or.inl (hf.lt_trans a b c h1 h2)
    · exact Or.inl (hf.congr_right a b c h2e ▸ h1)
    · exact Or.inl (hf.congr_left a b c h1e ▸ h2)
    · exact Or.inr ⟨by rw [← hf.congr_left a b c h1e, h2e],
        hg.lt_trans a b c h1g h2g⟩

theorem lawCmp_on {α β : Type} (k : α → β) {g : β → β → Ordering} (hg : IsLawCmp g) :
    IsLawCmp (fun a b => g (k a) (k b)) :=
  ⟨fun a b => hg.swap_eq _ _, fun a b c h => hg.congr_left _ _ _ h,
   fun a b c h1 h2 => hg.lt_trans _ _ _ h1 h2⟩

theorem natCmp_law : IsLawCmp natCmp := by
  refine ⟨fun a b => ?_, fun a b c h => ?_, fun a b c h1 h2 => ?_⟩
  · rcases Nat.lt_trichotomy a b with h | h | h
    · have h1 : ¬ b < a := by omega
      have h2 : b ≠ a := by omega
      simp [natCmp, h, h1, h2, Ordering.swap]
    · simp [natCmp, h, Ordering.swap]
    · have h1 : ¬ a < b := by omega
      have h2 : a ≠ b := by omega
      simp [natCmp, h, h1, h2, Ordering.swap]
  · have hab : a = b := by
      rw [natCmp] at h
      by_cases hl : a < b
      · simp [hl] at h
      · by_cases he : a = b
        · exact he
        · simp [hl, he] at h
    rw [hab]
  · have hab : a < b := by
      rw [natCmp] at h1
      by_cases hl : a < b
      · exact hl
      · by_cases he : a = b <;> simp [hl, he] at h1
    have hbc : b < c := by
      rw [natCmp] at h2
      by_cases hl : b < c
      · exact hl
      · by_cases he : b = c <;> simp [hl, he] at h2
    simp [natCmp, Nat.lt_trans hab hbc]

theorem ratCmp_law : IsLawCmp ratCmp := by
  refine ⟨fun a b => ?_, fun a b c h => ?_, fun a b c h1 h2 => ?_⟩
  · rcases lt_trichotomy a b with h | h | h
    · have hb1 : ¬ b < a := by linarith
      have hb2 : b ≠ a := by intro he; rw [he] at h; exact lt_irrefl a h
      simp [ratCmp, h, hb1, hb2, Ordering.swap]
    · simp [ratCmp, h, Ordering.swap]
    · have hb1 : ¬ a < b := by linarith
      have hb2 : a ≠ b := by intro he; rw [he] at h; exact lt_irrefl b h
      simp [ratCmp, h, hb1, hb2, Ordering.swap]
  · have hab : a = b := by
      rw [ratCmp] at h
      by_cases hl : a < b
      · simp [hl] at h
      · by_cases he : a = b
        · exact he
        · simp [hl, he] at h
    rw [hab]
  · have hab : a < b := by
      rw [ratCmp] at h1
      by_cases hl : a < b
      · exact hl
      · by_cases he : a = b <;> simp [hl, he] at h1
    have hbc : b < c := by
      rw [ratCmp] at h2
      by_cases hl : b < c
      · exact hl
      · by_cases he : b = c <;> simp [hl, he] at h2
    simp [ratCmp, lt_trans hab hbc]

theorem natCmp_eq_iff (a b : ℕ) : natCmp a b = .eq ↔ a = b := by
  rw [natCmp]
  by_cases hl : a < b
  · simp only [hl, if_true]
    constructor
    · intro h; exact absurd h (by simp)
    · intro h; omega
  · by_cases he : a = b <;> simp [hl, he]

theorem ctokCmp_eq_iff (a b : CTok) : ctokCmp a b = .eq ↔ a = b := by
  cases a <;> cases b <;> simp [ctokCmp, natCmp_eq_iff]

theorem ctokCmp_law : IsLawCmp ctokCmp := by
  refine ⟨fun a b => ?_, fun a b c h => ?_, fun a b c h1 h2 => ?_⟩
  · cases a <;> cases b <;> simp only [ctokCmp] <;>
      first
      | rfl
      | exact natCmp_law.swap_eq _ _
  · rw [ctokCmp_eq_iff] at h
    rw [h]
  · cases a <;> cases b <;> cases c <;> simp [ctokCmp] at h1 h2 ⊢ <;>
      exact natCmp_law.lt_trans _ _ _ h1 h2

theorem listCmpC_eq_iff (a b : List CTok) : listCmpC a b = .eq ↔ a = b := by
  induction a generalizing b with
  | nil => cases b <;> simp [listCmpC]
  | cons x xs ih =>
    cases b with
    | nil => simp [listCmpC]
    | cons y ys =>
      rw [listCmpC, then_eq_eq_iff, ctokCmp_eq_iff, ih]
      simp

theorem listCmpC_law : IsLawCmp listCmpC := by
  refine ⟨?_, fun a b c h => ?_, ?_⟩
  · intro a
    induction a with
    | nil => intro b; cases b <;> rfl
    | cons x xs ih =>
      intro b
      cases b with
      | nil => rfl
      | cons y ys => rw [listCmpC, listCmpC, thenSwap, ctokCmp_law.swap_eq, ih]
  · rw [listCmpC_eq_iff] at h
    rw [h]
  · intro a
    induction a with
    | nil =>
      intro b c h1 h2
      cases b with
      | nil => cases c <;> simp_all [listCmpC]
      | cons y ys => cases c <;> simp_all [listCmpC]
    | cons x xs ih =>
      intro b c h1 h2
      cases b with
      | nil => simp [listCmpC] at h1
      | cons y ys =>
        cases c with
        | nil => simp [listCmpC] at h2
        | cons z zs =>
          rw [listCmpC, then_eq_lt_iff] at h1 h2 ⊢
          rcases h1 with h1 | ⟨h1e, h1t⟩ <;> rcases h2 with h2 | ⟨h2e, h2t⟩
          · exact Or.inl (ctokCmp_law.lt_trans _ _ _ h1 h2)
          · rw [ctokCmp_eq_iff] at h2e
            exact Or.inl (h2e ▸ h1)
          · rw [ctokCmp_eq_iff] at h1e
            exact Or.inl (h1e ▸ h2)
          · rw [ctokCmp_eq_iff] at h1e h2e
            exact Or.inr ⟨by rw [h1e, h2e, ctokCmp_eq_iff], ih ys zs h1t h2t⟩

theorem rkeyCmp_law : IsLawCmp rkeyCmp := by
  unfold rkeyCmp
  exact lawCmp_then (lawCmp_on RKey.tip listCmpC_law)
    (lawCmp_then (lawCmp_on RKey.reg listCmpC_law)
      (lawCmp_then (lawCmp_on RKey.zcls natCmp_law)
        (lawCmp_then (lawCmp_on RKey.zprio ratCmp_law)
          (lawCmp_then (lawCmp_on RKey.zname listCmpC_law)
            (lawCmp_then (lawCmp_on RKey.zona listCmpC_law)
              (lawCmp_then (lawCmp_on RKey.prod listCmpC_law)
                (lawCmp_on RKey.tie listCmpC_law)))))))

theorem ordOfQ_ordQ (o : Ordering) : ordOfQ (ordQ o) = o := by
  cases o
  · rw [ordQ, ordOfQ, if_pos (by norm_num : (-1 : ℚ) < 0)]
  · rw [ordQ, ordOfQ, if_neg (by norm_num : ¬ (0 : ℚ) < 0), if_pos rfl]
  · rw [ordQ, ordOfQ, if_neg (by norm_num : ¬ (1 : ℚ) < 0),
      if_neg (by norm_num : ¬ (1 : ℚ) = 0)]

theorem ordOfQ_sub (x y : ℚ) : ordOfQ (x - y) = ratCmp x y := by
  simp only [ordOfQ, ratCmp, sub_neg, sub_eq_zero]

theorem ite_ordQ_stage (o : Ordering) (rest : ℚ) (k : Ordering)
    (hrest : o = .eq → ordOfQ rest = k) :
    ordOfQ (if ordQ o ≠ 0 then ordQ o else rest) = o.then k := by
  cases o
  · rw [if_pos (by norm_num [ordQ] : ordQ Ordering.lt ≠ 0), ordOfQ_ordQ]
    rfl
  · rw [if_neg (by norm_num [ordQ] : ¬ ordQ Ordering.eq ≠ 0)]
    exact hrest rfl
  · rw [if_pos (by norm_num [ordQ] : ordQ Ordering.gt ≠ 0), ordOfQ_ordQ]
    rfl

theorem ordOfQ_compareTail (x y : WineRec) :
    ordOfQ (compareTail x y) =
      (listCmpC (collKey (getField x "Zona")) (collKey (getField y "Zona"))).then
        ((listCmpC (collKey (getField x "Produttore"))
            (collKey (getField y "Produttore"))).then
          (listCmpC (collKey (tieBreakStr x)) (collKey (tieBreakStr y)))) := by
  simp only [compareTail, localeCompareIt]
  refine ite_ordQ_stage _ _ _ (fun _ => ?_)
  refine ite_ordQ_stage _ _ _ (fun _ => ?_)
  exact ordOfQ_ordQ _

theorem ratCmp_zero_zero : ratCmp 0 0 = .eq := by
  rw [ratCmp, if_neg (by norm_num : ¬ (0 : ℚ) < 0), if_pos rfl]

theorem compareWine_key (zm : Option ZoneMapping) (a b : WineRec) :
    ordOfQ (compareWine zm a b) = rkeyCmp (recKey zm a) (recKey zm b) := by
  simp only [compareWine, localeCompareIt, rkeyCmp, recKey]
  refine ite_ordQ_stage _ _ _ (fun _ => ?_)
  refine ite_ordQ_stage _ _ _ (fun _ => ?_)
  cases zm with
  | none =>
    simp only [zoneBlockCmp, natCmp, lt_irrefl, if_false, if_pos rfl, ratCmp_zero_zero,
      listCmpC, Ordering.then]
    exact ordOfQ_compareTail a b
  | some m =>
    simp only [zoneBlockCmp]
    cases hpa : zonePriority m a with
    | none =>
      cases hpb : zonePriority m b with
      | none =>
        simp only [natCmp, lt_irrefl, if_false, if_pos rfl, ratCmp_zero_zero,
          listCmpC, Ordering.then]
        exact ordOfQ_compareTail a b
      | some pb =>
        dsimp only
        rw [show ordOfQ 1 = .gt from by
          rw [ordOfQ, if_neg (by norm_num : ¬ (1 : ℚ) < 0),
            if_neg (by norm_num : ¬ (1 : ℚ) = 0)]]
        rfl
    | some pa =>
      cases hpb : zonePriority m b with
      | none =>
        dsimp only
        rw [show ordOfQ (-1) = .lt from by
          rw [ordOfQ, if_pos (by norm_num : (-1 : ℚ) < 0)]]
        rfl
      | some pb =>
        have h00 : natCmp 0 0 = .eq := by decide
        simp only [h00, Ordering.then]
        by_cases hd : coercePrio pa - coercePrio pb = 0
        · rw [if_neg (by simpa using hd)]
          have he : coercePrio pa = coercePrio pb := sub_eq_zero.1 hd
          have hre : ratCmp (coercePrio pa) (coercePrio pb) = .eq := by
            rw [he, ratCmp, if_neg (lt_irrefl _), if_pos rfl]
          rw [hre]
          simp only [localeCompareIt, Ordering.then]
          have hstage := ite_ordQ_stage
            (listCmpC (collKey (zoneNameOrEmpty m a)) (collKey (zoneNameOrEmpty m b)))
          cases h5 : listCmpC (collKey (zoneNameOrEmpty m a))
              (collKey (zoneNameOrEmpty m b)) with
          | lt =>
            rw [if_pos (by norm_num [ordQ] : ordQ Ordering.lt ≠ 0)]
            exact ordOfQ_ordQ _
          | gt =>
            rw [if_pos (by norm_num [ordQ] : ordQ Ordering.gt ≠ 0)]
            exact ordOfQ_ordQ _
          | eq =>
            rw [if_neg (by norm_num [ordQ] : ¬ ordQ Ordering.eq ≠ 0)]
            exact ordOfQ_compareTail a b
        · rw [if_pos hd]
          rw [ordOfQ_sub]
          have hne : ratCmp (coercePrio pa) (coercePrio pb) ≠ .eq := by
            intro hc
            apply hd
            rw [ratCmp] at hc
            by_cases hl : coercePrio pa < coercePrio pb
            · rw [if_pos hl] at hc
              exact absurd hc (by decide)
            · by_cases heq : coercePrio pa = coercePrio pb
              · rw [heq]
                ring
              · rw [if_neg hl, if_neg heq] at hc
                exact absurd hc (by decide)
          cases hc : ratCmp (coercePrio pa) (coercePrio pb) with
          | lt => rfl
          | eq => exact absurd hc hne
          | gt => rfl

theorem ordOfQ_gt_iff (q : ℚ) : ordOfQ q = .gt ↔ 0 < q := by
  rw [ordOfQ]
  by_cases h1 : q < 0
  · rw [if_pos h1]
    constructor
    · intro h
      exact absurd h (by decide)
    · intro h
      linarith
  · by_cases h2 : q = 0
    · rw [if_neg h1, if_pos h2]
      constructor
      · intro h
        exact absurd h (by decide)
      · intro h
        rw [h2] at h
        exact absurd h (lt_irrefl 0)
    · rw [if_neg h1, if_neg h2]
      constructor
      · intro _
        exact lt_of_le_of_ne (not_lt.1 h1) (Ne.symm h2)
      · intro _
        rfl

theorem sortLe_iff (zm : Option ZoneMapping) (a b : WineRec) :
    sortLe zm a b ↔ rkeyCmp (recKey zm a) (recKey zm b) ≠ .gt := by
  rw [sortLe, ← compareWine_key zm a b]
  simp only [ne_eq, ordOfQ_gt_iff]
  exact not_lt.symm

theorem sortLe_total (zm : Option ZoneMapping) (a b : WineRec) :
    sortLe zm a b ∨ sortLe zm b a := by
  rw [sortLe_iff, sortLe_iff]
  by_cases h : rkeyCmp (recKey zm a) (recKey zm b) = .gt
  · right
    have hs := rkeyCmp_law.swap_eq (recKey zm a) (recKey zm b)
    rw [h] at hs
    rw [← hs]
    simp [Ordering.swap]
  · exact Or.inl h

theorem sortLe_trans (zm : Option ZoneMapping) (a b c : WineRec)
    (h1 : sortLe zm a b) (h2 : sortLe zm b c) : sortLe zm a c := by
  rw [sortLe_iff] at h1 h2 ⊢
  exact rkeyCmp_law.ne_gt_trans _ _ _ h1 h2

instance (zm : Option ZoneMapping) : IsTotal WineRec (sortLe zm) :=
  ⟨sortLe_total zm⟩

instance (zm : Option ZoneMapping) : IsTrans WineRec (sortLe zm) :=
  ⟨sortLe_trans zm⟩

theorem wineDataSorter_idem (zm : Option ZoneMapping) (data : List WineRec) :
    wineDataSorter (wineDataSorter data zm) zm = wineDataSorter data zm := by
  cases data with
  | nil => rfl
  | cons r rest =>
    have hsorted := List.sorted_insertionSort (sortLe zm) (r :: rest)
    cases hs : (r :: rest).insertionSort (sortLe zm) with
    | nil =>
      have := List.length_insertionSort (sortLe zm) (r :: rest)
      rw [hs] at this
      simp at this
    | cons s srest =>
      have h1 : wineDataSorter (r :: rest) zm = (r :: rest).insertionSort (sortLe zm) := rfl
      rw [h1, hs]
      have h2 : wineDataSorter (s :: srest) zm = (s :: srest).insertionSort (sortLe zm) := rfl
      rw [h2, ← hs]
      exact hsorted.insertionSort_eq

/-- Zone mapping with a zero-priority zone and a priority-500 zone, for the
C2 counterexample. -/
def zmPrioEx : ZoneMapping :=
  [("z0", ⟨"z0", some "Alpha", none, none, some 0⟩),
   ("z1", ⟨"z1", some "Beta", none, none, some 500⟩)]

/-- Record linked to the zero-priority zone. -/
def recZoneA : WineRec :=
  ⟨.str "ra", .nullV,
   [("Tipologia", .str "Rosso"), ("Regione", .str "Toscana"),
    ("Zona", .arr [.str "z0"])]⟩

/-- Record linked to the priority-500 zone. -/
def recZoneB : WineRec :=
  ⟨.str "rb", .nullV,
   [("Tipologia", .str "Rosso"), ("Regione", .str "Toscana"),
    ("Zona", .arr [.str "z1"])]⟩

/-- C2 counterexample: two records whose resolved zones both have a non-null
numeric priority (0 and 500), yet the comparator does not order them by
priority numerically ascending: the claim predicts the priority-0 record
first (compare value below zero), but the (priority || 999) coercion turns 0
into 999 and the comparator returns 499, putting it after the priority-500
record. -/
theorem wineDataSorter_priority_zero_counterexample :
    zonePriority zmPrioEx recZoneA = some 0 ∧
    zonePriority zmPrioEx recZoneB = some 500 ∧
    (0 : ℚ) < 500 ∧
    compareWine (some zmPrioEx) recZoneA recZoneB = 499 ∧
    ¬ compareWine (some zmPrioEx) recZoneA recZoneB < 0 := by
  have hpa : zonePriority zmPrioEx recZoneA = some 0 := by decide
  have hpb : zonePriority zmPrioEx recZoneB = some 500 := by decide
  have h1 : localeCompareIt (getField recZoneA "Tipologia")
      (getField recZoneB "Tipologia") = 0 := by decide
  have h2 : localeCompareIt (getField recZoneA "Regione")
      (getField recZoneB "Regione") = 0 := by decide
  have hz : zoneBlockCmp (some zmPrioEx) recZoneA recZoneB = some 499 := by
    rw [zoneBlockCmp, hpa, hpb]
    norm_num [coercePrio]
  have hcw : compareWine (some zmPrioEx) recZoneA recZoneB = 499 := by
    rw [compareWine, h1, h2]
    simp [hz]
  exact ⟨hpa, hpb, by norm_num, hcw, by rw [hcw]; norm_num⟩

/-- C2 amended: in the zone comparison step (Tipologia and Regione having
compared equal), with a zoneMapping supplied: when both records resolve a
non-null numeric priority the comparator orders them by the coerced priority
(priority || 999), i.e. a falsy zero priority is replaced by 999 before the
ascending numeric comparison — not by the raw priority — and breaks coerced
ties by resolved zone name, falling through to the tail comparison when the
names also tie; when exactly one side resolves a priority that side sorts
first (the comparator returns -1, resp. 1); when neither side resolves a
priority the comparator falls through to the alphabetical comparison of the
raw Zona field. -/
theorem wineDataSorter_zone_priority_comparison (m : ZoneMapping) (a b : WineRec)
    (htip : localeCompareIt (getField a "Tipologia") (getField b "Tipologia") = 0)
    (hreg : localeCompareIt (getField a "Regione") (getField b "Regione") = 0) :
    (∀ pa pb, zonePriority m a = some pa → zonePriority m b = some pb →
      ((coercePrio pa < coercePrio pb → compareWine (some m) a b < 0) ∧
       (coercePrio pb < coercePrio pa → 0 < compareWine (some m) a b) ∧
       (coercePrio pa = coercePrio pb →
         (localeCompareIt (zoneNameOrEmpty m a) (zoneNameOrEmpty m b) ≠ 0 →
           compareWine (some m) a b =
             localeCompareIt (zoneNameOrEmpty m a) (zoneNameOrEmpty m b)) ∧
         (localeCompareIt (zoneNameOrEmpty m a) (zoneNameOrEmpty m b) = 0 →
           compareWine (some m) a b = compareTail a b)))) ∧
    (∀ pa, zonePriority m a = some pa → zonePriority m b = none →
      compareWine (some m) a b = -1) ∧
    (∀ pb, zonePriority m a = none → zonePriority m b = some pb →
      compareWine (some m) a b = 1) ∧
    (zonePriority m a = none → zonePriority m b = none →
      compareWine (some m) a b = compareTail a b) := by
  have hcw : compareWine (some m) a b =
      match zoneBlockCmp (some m) a b with
      | some v => v
      | none => compareTail a b := by
    rw [compareWine, htip, hreg]
    simp
  refine ⟨fun pa pb hpa hpb => ?_, fun pa hpa hpb => ?_, fun pb hpa hpb => ?_,
    fun hpa hpb => ?_⟩
  · refine ⟨fun hlt => ?_, fun hgt => ?_, fun heq => ⟨fun hname => ?_, fun hname => ?_⟩⟩
    · have hz : zoneBlockCmp (some m) a b = some (coercePrio pa - coercePrio pb) := by
        rw [zoneBlockCmp, hpa, hpb]
        simp only [if_pos (by intro h0; rw [sub_eq_zero] at h0; linarith :
          coercePrio pa - coercePrio pb ≠ 0)]
      rw [hcw, hz]
      exact sub_neg.mpr hlt
    · have hz : zoneBlockCmp (some m) a b = some (coercePrio pa - coercePrio pb) := by
        rw [zoneBlockCmp, hpa, hpb]
        simp only [if_pos (by intro h0; rw [sub_eq_zero] at h0; linarith :
          coercePrio pa - coercePrio pb ≠ 0)]
      rw [hcw, hz]
      exact sub_pos.mpr hgt
    · have hz : zoneBlockCmp (some m) a b =
          some (localeCompareIt (zoneNameOrEmpty m a) (zoneNameOrEmpty m b)) := by
        rw [zoneBlockCmp, hpa, hpb]
        simp only [if_neg (by simp [sub_eq_zero, heq] :
          ¬ coercePrio pa - coercePrio pb ≠ 0)]
        simp [hname]
      rw [hcw, hz]
    · have hz : zoneBlockCmp (some m) a b = none := by
        rw [zoneBlockCmp, hpa, hpb]
        simp only [if_neg (by simp [sub_eq_zero, heq] :
          ¬ coercePrio pa - coercePrio pb ≠ 0)]
        simp [hname]
      rw [hcw, hz]
  · have hz : zoneBlockCmp (some m) a b = some (-1) := by
      rw [zoneBlockCmp, hpa, hpb]
    rw [hcw, hz]
  · have hz : zoneBlockCmp (some m) a b = some 1 := by
      rw [zoneBlockCmp, hpa, hpb]
    rw [hcw, hz]
  · have hz : zoneBlockCmp (some m) a b = none := by
      rw [zoneBlockCmp, hpa, hpb]
    rw [hcw, hz]

/-- Zone mapping with honest priorities 1 and 2 for the C2 witness. -/
def zmPrioW : ZoneMapping :=
  [("w1", ⟨"w1", some "Langhe", none, none, some 1⟩),
   ("w2", ⟨"w2", some "Roero", none, none, some 2⟩)]

/-- Record linked to the priority-1 zone. -/
def recZoneW1 : WineRec :=
  ⟨.str "rw1", .nullV,
   [("Tipologia", .str "Rosso"), ("Regione", .str "Piemonte"),
    ("Zona", .arr [.str "w1"])]⟩

/-- Record linked to the priority-2 zone. -/
def recZoneW2 : WineRec :=
  ⟨.str "rw2", .nullV,
   [("Tipologia", .str "Rosso"), ("Regione", .str "Piemonte"),
    ("Zona", .arr [.str "w2"])]⟩

/-- Instantiation of the zone-priority theorem: with priorities 1 and 2 the
priority-1 record compares below zero. -/
theorem wineDataSorter_zone_priority_comparison_witness :
    compareWine (some zmPrioW) recZoneW1 recZoneW2 < 0 :=
  ((wineDataSorter_zone_priority_comparison zmPrioW recZoneW1 recZoneW2
      (by decide) (by decide)).1 1 2 (by decide) (by decide)).1
    (by norm_num [coercePrio])

/-- C3: the comparator applies its keys in strict priority order (Tipologia,
then Regione, then the zone step, then — via the tail — Zona, Produttore and
the Vino + Annata / id tie-break), each step short-circuiting on a non-zero
result; it induces a total preorder (its non-strict relation is total and
transitive); and sorting any record list twice yields the identical output
order. -/
theorem wineDataSorter_total_order_deterministic :
    (∀ (zm : Option ZoneMapping) (a b : WineRec),
      localeCompareIt (getField a "Tipologia") (getField b "Tipologia") ≠ 0 →
      compareWine zm a b =
        localeCompareIt (getField a "Tipologia") (getField b "Tipologia")) ∧
    (∀ (zm : Option ZoneMapping) (a b : WineRec),
      localeCompareIt (getField a "Tipologia") (getField b "Tipologia") = 0 →
      localeCompareIt (getField a "Regione") (getField b "Regione") ≠ 0 →
      compareWine zm a b =
        localeCompareIt (getField a "Regione") (getField b "Regione")) ∧
    (∀ (zm : Option ZoneMapping) (a b : WineRec),
      localeCompareIt (getField a "Tipologia") (getField b "Tipologia") = 0 →
      localeCompareIt (getField a "Regione") (getField b "Regione") = 0 →
      (∀ v, zoneBlockCmp zm a b = some v → compareWine zm a b = v) ∧
      (zoneBlockCmp zm a b = none → compareWine zm a b = compareTail a b)) ∧
    (∀ a b : WineRec,
      localeCompareIt (getField a "Zona") (getField b "Zona") ≠ 0 →
      compareTail a b = localeCompareIt (getField a "Zona") (getField b "Zona")) ∧
    (∀ a b : WineRec,
      localeCompareIt (getField a "Zona") (getField b "Zona") = 0 →
      localeCompareIt (getField a "Produttore") (getField b "Produttore") ≠ 0 →
      compareTail a b =
        localeCompareIt (getField a "Produttore") (getField b "Produttore")) ∧
    (∀ a b : WineRec,
      localeCompareIt (getField a "Zona") (getField b "Zona") = 0 →
      localeCompareIt (getField a "Produttore") (getField b "Produttore") = 0 →
      compareTail a b = localeCompareIt (tieBreakStr a) (tieBreakStr b)) ∧
    (∀ (zm : Option ZoneMapping) (a b : WineRec), sortLe zm a b ∨ sortLe zm b a) ∧
    (∀ (zm : Option ZoneMapping) (a b c : WineRec),
      sortLe zm a b → sortLe zm b c → sortLe zm a c) ∧
    (∀ (zm : Option ZoneMapping) (data : List WineRec),
      wineDataSorter (wineDataSorter data zm) zm = wineDataSorter data zm) := by
  refine ⟨fun zm a b h => ?_, fun zm a b h1 h2 => ?_, fun zm a b h1 h2 => ⟨?_, ?_⟩,
    fun a b h => ?_, fun a b h1 h2 => ?_, fun a b h1 h2 => ?_,
    sortLe_total, sortLe_trans, fun zm data => wineDataSorter_idem zm data⟩
  · rw [compareWine]
    simp [h]
  · rw [compareWine]
    simp [h1, h2]
  · intro v hv
    rw [compareWine]
    simp [h1, h2, hv]
  · intro hv
    rw [compareWine]
    simp [h1, h2, hv]
  · rw [compareTail]
    simp [h]
  · rw [compareTail]
    simp [h1, h2]
  · rw [compareTail]
    simp [h1, h2]

/-- Records with three distinct categories for the C3 witness. -/
def recCatA : WineRec := ⟨.str "ca", .nullV, [("Tipologia", .str "Bianco")]⟩

def recCatB : WineRec := ⟨.str "cb", .nullV, [("Tipologia", .str "Rosso")]⟩

def recCatC : WineRec := ⟨.str "cc", .nullV, [("Tipologia", .str "Verde")]⟩

/-- Instantiation of the total-order theorem: the Tipologia short-circuit at
two concrete records and transitivity of the sort relation at three. -/
theorem wineDataSorter_total_order_deterministic_witness :
    compareWine none recCatA recCatB =
        localeCompareIt (getField recCatA "Tipologia") (getField recCatB "Tipologia") ∧
      sortLe none recCatA recCatC :=
  ⟨wineDataSorter_total_order_deterministic.1 none recCatA recCatB (by decide),
   wineDataSorter_total_order_deterministic.2.2.2.2.2.2.2.1 none recCatA recCatB recCatC
     (by decide) (by decide)⟩

/-- JS object consumed by the document assembler: properties in insertion
order. -/
abbrev Obj := List (String × FieldValue)

/-- Section of the assembled wines array: the lifted grouping keys and the
items of that (category, region, zone) bucket. -/
structure WineSection where
  category : FieldValue
  region : FieldValue
  zone : FieldValue
  items : List Obj
  deriving DecidableEq

/-- Destructuring const (category, region, zone, ...itemData) = record: the
item retains every property except the three lifted keys, in order. -/
def stripGroupKeys (r : Obj) : Obj :=
  r.filter (fun p => !(p.1 == "category" || p.1 == "region" || p.1 == "zone"))

/-- getOrCreate followed by an update on an insertion-ordered map (JS Map
semantics): an existing key keeps its position, a new key is appended. -/
def mapUpd {β : Type} (k : FieldValue) (f : Option β → β) :
    List (FieldValue × β) → List (FieldValue × β)
  | [] => [(k, f none)]
  | (q, v) :: rest =>
    if k = q then (q, f (some v)) :: rest else (q, v) :: mapUpd k f rest

/-- Lookup in an insertion-ordered map (JS Map.get with SameValueZero keys,
modelled structurally). -/
def aLookup {β : Type} : List (FieldValue × β) → FieldValue → Option β
  | [], _ => none
  | (q, v) :: rest, k => if k = q then some v else aLookup rest k

abbrev ZoneGroups := List (FieldValue × List Obj)

abbrev RegionGroups := List (FieldValue × ZoneGroups)

abbrev CatGroups := List (FieldValue × RegionGroups)

/-- Grouping step of wineDataYamlBuilder for one record (wineList.js lines
933-945): insert the stripped record in the category, region, zone nested
maps, creating each level when absent. -/
def insertRecordGroup (g : CatGroups) (r : Obj) : CatGroups :=
  mapUpd (getProp r "category") (fun mc =>
    mapUpd (getProp r "region") (fun mr =>
      mapUpd (getProp r "zone") (fun mz => mz.getD [] ++ [stripGroupKeys r])
        (mr.getD []))
      (mc.getD [])) g

/-- Grouping pass over all records. -/
def groupWines (data : List Obj) : CatGroups :=
  data.foldl insertRecordGroup []

/-- wineDataYamlBuilder (wineList.js lines 889-979) up to its wines array:
the nested grouping flattened into sections in map insertion order.  The
final serialization of the wines object through the external yaml library is
outside the model. -/
def wineDataYamlBuilderWines (data : List Obj) : List WineSection :=
  (groupWines data).flatMap (fun cp =>
    cp.2.flatMap (fun rp =>
      rp.2.map (fun zp => ⟨cp.1, rp.1, zp.1, zp.2⟩)))

/-- Items of one (category, region, zone) bucket of the grouping. -/
def itemsAt (g : CatGroups) (c r z : FieldValue) : List Obj :=
  ((((aLookup g c).bind (fun rm => aLookup rm r)).bind (fun zg => aLookup zg z)).getD [])

/-- Record matches a bucket key. -/
def keyMatches (rec : Obj) (c r z : FieldValue) : Bool :=
  decide (getProp rec "category" = c ∧ getProp rec "region" = r ∧ getProp rec "zone" = z)

theorem aLookup_mapUpd_self {β : Type} (k : FieldValue) (f : Option β → β) :
    ∀ l : List (FieldValue × β), aLookup (mapUpd k f l) k = some (f (aLookup l k)) := by
  intro l
  induction l with
  | nil => simp [mapUpd, aLookup]
  | cons p rest ih =>
    obtain ⟨q, v⟩ := p
    by_cases h : k = q
    · simp [mapUpd, aLookup, h]
    · simp [mapUpd, aLookup, h, ih]

theorem aLookup_mapUpd_ne {β : Type} (k q : FieldValue) (f : Option β → β)
    (h : q ≠ k) :
    ∀ l : List (FieldValue × β), aLookup (mapUpd k f l) q = aLookup l q := by
  intro l
  induction l with
  | nil => simp [mapUpd, aLookup, h]
  | cons p rest ih =>
    obtain ⟨x, v⟩ := p
    by_cases hk : k = x
    · subst hk
      simp [mapUpd, aLookup, h]
    · by_cases hq : q = x
      · simp [mapUpd, aLookup, hk, hq]
      · simp [mapUpd, aLookup, hk, hq, ih]

theorem itemsAt_insert (g : CatGroups) (rec : Obj) (c r z : FieldValue) :
    itemsAt (insertRecordGroup g rec) c r z =
      if keyMatches rec c r z
      then itemsAt g c r z ++ [stripGroupKeys rec]
      else itemsAt g c r z := by
  rw [keyMatches]
  by_cases hc : getProp rec "category" = c
  · subst hc
    by_cases hr : getProp rec "region" = r
    · subst hr
      by_cases hz : getProp rec "zone" = z
      · subst hz
        simp only [itemsAt, insertRecordGroup, aLookup_mapUpd_self, Option.some_bind]
        cases hgc : aLookup g (getProp rec "category") with
        | none => simp [hgc, aLookup]
        | some rm =>
          cases hrm : aLookup rm (getProp rec "region") with
          | none => simp [hgc, hrm, aLookup]
          | some zg =>
            cases hzg : aLookup zg (getProp rec "zone") with
            | none => simp [hgc, hrm, hzg]
            | some its => simp [hgc, hrm, hzg]
      · simp only [itemsAt, insertRecordGroup, aLookup_mapUpd_self, Option.some_bind]
        rw [aLookup_mapUpd_ne _ _ _ (fun he => hz he.symm)]
        cases hgc : aLookup g (getProp rec "category") with
        | none => simp [hgc, aLookup, hz]
        | some rm =>
          cases hrm : aLookup rm (getProp rec "region") with
          | none => simp [hgc, hrm, aLookup, hz]
          | some zg => simp [hgc, hrm, hz]
    · simp only [itemsAt, insertRecordGroup, aLookup_mapUpd_self, Option.some_bind]
      rw [aLookup_mapUpd_ne _ _ _ (fun he => hr he.symm)]
      cases hgc : aLookup g (getProp rec "category") with
      | none => simp [hgc, aLookup, hr]
      | some rm => simp [hgc, hr]
  · rw [itemsAt, itemsAt, insertRecordGroup,
      aLookup_mapUpd_ne _ _ _ (fun he => hc he.symm)]
    simp [hc]

theorem itemsAt_groupWines_aux (c r z : FieldValue) :
    ∀ (data : List Obj) (g : CatGroups),
      itemsAt (data.foldl insertRecordGroup g) c r z =
        itemsAt g c r z ++
          (data.filter (fun rec => keyMatches rec c r z)).map stripGroupKeys := by
  intro data
  induction data with
  | nil => intro g; simp
  | cons rec rest ih =>
    intro g
    rw [List.foldl_cons, ih, itemsAt_insert, List.filter_cons]
    by_cases h : keyMatches rec c r z <;> simp [h]

/-- All grouped items of the nested structure, flattened. -/
def flatItems (g : CatGroups) : List Obj :=
  g.flatMap (fun cp => cp.2.flatMap (fun rp => rp.2.flatMap (fun zp => zp.2)))

theorem flatMap_mapUpd_perm {β γ : Type} (m : β → List γ) (k : FieldValue)
    (f : Option β → β) (x : γ)
    (h : ∀ o : Option β,
      List.Perm (m (f o)) ((match o with | some b => m b | none => []) ++ [x])) :
    ∀ l : List (FieldValue × β),
      List.Perm ((mapUpd k f l).flatMap (fun p => m p.2))
        (l.flatMap (fun p => m p.2) ++ [x]) := by
  intro l
  induction l with
  | nil => simpa [mapUpd] using h none
  | cons p rest ih =>
    obtain ⟨q, v⟩ := p
    by_cases hk : k = q
    · simp only [mapUpd, if_pos hk, List.flatMap_cons]
      refine ((h (some v)).append_right _).trans ?_
      rw [List.append_assoc, List.append_assoc]
      exact (@List.perm_append_comm _ [x]
        (rest.flatMap (fun p => m p.2))).append_left (m v)
    · simp only [mapUpd, if_neg hk, List.flatMap_cons]
      rw [List.append_assoc]
      exact ih.append_left (m v)

theorem flatItems_insert (g : CatGroups) (rec : Obj) :
    List.Perm (flatItems (insertRecordGroup g rec))
      (flatItems g ++ [stripGroupKeys rec]) := by
  rw [flatItems, insertRecordGroup, flatItems]
  refine flatMap_mapUpd_perm
    (fun rm : RegionGroups => rm.flatMap (fun rp => rp.2.flatMap (fun zp => zp.2)))
    (getProp rec "category") _ (stripGroupKeys rec) (fun o => ?_) g
  cases o with
  | none =>
    simp only [Option.getD_none]
    refine flatMap_mapUpd_perm
      (fun zg : ZoneGroups => zg.flatMap (fun zp => zp.2))
      (getProp rec "region") _ (stripGroupKeys rec) (fun o2 => ?_) []
    cases o2 with
    | none =>
      simp only [Option.getD_none]
      have := flatMap_mapUpd_perm (fun its : List Obj => its) (getProp rec "zone")
        (fun mz => mz.getD [] ++ [stripGroupKeys rec]) (stripGroupKeys rec)
        (fun o3 => by cases o3 <;> simp) []
      simpa using this
    | some zg =>
      have := flatMap_mapUpd_perm (fun its : List Obj => its) (getProp rec "zone")
        (fun mz => mz.getD [] ++ [stripGroupKeys rec]) (stripGroupKeys rec)
        (fun o3 => by cases o3 <;> simp) zg
      simpa using this
  | some rm =>
    simp only [Option.getD_some]
    refine flatMap_mapUpd_perm
      (fun zg : ZoneGroups => zg.flatMap (fun zp => zp.2))
      (getProp rec "region") _ (stripGroupKeys rec) (fun o2 => ?_) rm
    cases o2 with
    | none =>
      simp only [Option.getD_none]
      have := flatMap_mapUpd_perm (fun its : List Obj => its) (getProp rec "zone")
        (fun mz => mz.getD [] ++ [stripGroupKeys rec]) (stripGroupKeys rec)
        (fun o3 => by cases o3 <;> simp) []
      simpa using this
    | some zg =>
      have := flatMap_mapUpd_perm (fun its : List Obj => its) (getProp rec "zone")
        (fun mz => mz.getD [] ++ [stripGroupKeys rec]) (stripGroupKeys rec)
        (fun o3 => by cases o3 <;> simp) zg
      simpa using this

theorem flatItems_groupWines :
    ∀ (data : List Obj) (g : CatGroups),
      List.Perm (flatItems (data.foldl insertRecordGroup g))
        (flatItems g ++ data.map stripGroupKeys) := by
  intro data
  induction data with
  | nil => intro g; simp
  | cons rec rest ih =>
    intro g
    rw [List.foldl_cons, List.map_cons]
    refine (ih (insertRecordGroup g rec)).trans ?_
    refine ((flatItems_insert g rec).append_right _).trans ?_
    rw [List.append_assoc]
    exact List.Perm.append_left _ (by simpa using List.perm_middle.symm)

/-- Keys of each level of the grouping are distinct (JS Map keys). -/
def NodupKeys {β : Type} (l : List (FieldValue × β)) : Prop :=
  (l.map Prod.fst).Nodup

def GoodGroups (g : CatGroups) : Prop :=
  NodupKeys g ∧ ∀ cp ∈ g, NodupKeys cp.2 ∧ ∀ rp ∈ cp.2, NodupKeys rp.2

theorem mapUpd_keys {β : Type} (k : FieldValue) (f : Option β → β) :
    ∀ l : List (FieldValue × β),
      (mapUpd k f l).map Prod.fst =
        if k ∈ l.map Prod.fst then l.map Prod.fst else l.map Prod.fst ++ [k] := by
  intro l
  induction l with
  | nil => simp [mapUpd]
  | cons p rest ih =>
    obtain ⟨q, v⟩ := p
    by_cases hk : k = q
    · simp [mapUpd, hk]
    · simp only [mapUpd, if_neg hk, List.map_cons, ih]
      by_cases hmem : k ∈ rest.map Prod.fst
      · simp [hmem, hk]
      · simp [hmem, hk]

theorem NodupKeys_mapUpd {β : Type} (k : FieldValue) (f : Option β → β)
    (l : List (FieldValue × β)) (hl : NodupKeys l) : NodupKeys (mapUpd k f l) := by
  rw [NodupKeys, mapUpd_keys]
  by_cases hmem : k ∈ l.map Prod.fst
  · simpa [hmem] using hl
  · simp only [hmem, if_false]
    simpa [List.nodup_append, hmem] using hl

theorem mem_mapUpd {β : Type} (k : FieldValue) (f : Option β → β) :
    ∀ (l : List (FieldValue × β)), NodupKeys l → ∀ p ∈ mapUpd k f l,
      (p ∈ l ∧ p.1 ≠ k) ∨ p = (k, f (aLookup l k)) := by
  intro l
  induction l with
  | nil =>
    intro _ p hp
    simp only [mapUpd, List.mem_singleton] at hp
    exact Or.inr (by simp [hp, aLookup])
  | cons q rest ih =>
    intro hnd p hp
    obtain ⟨x, v⟩ := q
    by_cases hk : k = x
    · subst hk
      rw [mapUpd, if_pos rfl] at hp
      rcases List.mem_cons.1 hp with hp | hp
      · exact Or.inr (by simp [hp, aLookup])
      · refine Or.inl ⟨List.mem_cons_of_mem _ hp, ?_⟩
        intro hpk
        have hkeys : p.1 ∈ rest.map Prod.fst := List.mem_map_of_mem Prod.fst hp
        rw [hpk] at hkeys
        rw [NodupKeys, List.map_cons, List.nodup_cons] at hnd
        exact hnd.1 hkeys
    · rw [mapUpd, if_neg hk] at hp
      rcases List.mem_cons.1 hp with hp | hp
      · refine Or.inl ⟨List.mem_cons.2 (Or.inl hp), ?_⟩
        rw [hp]
        exact fun he => hk he.symm
      · have hnd2 : NodupKeys rest := by
          rw [NodupKeys, List.map_cons, List.nodup_cons] at hnd
          exact hnd.2
        rcases ih hnd2 p hp with ⟨hin, hne⟩ | heq
        · exact Or.inl ⟨List.mem_cons_of_mem _ hin, hne⟩
        · refine Or.inr ?_
          rw [heq]
          have hl : aLookup ((x, v) :: rest) k = aLookup rest k := by
            rw [aLookup, if_neg hk]
          rw [hl]

theorem aLookup_of_mem {β : Type} :
    ∀ (l : List (FieldValue × β)), NodupKeys l → ∀ k v, (k, v) ∈ l →
      aLookup l k = some v := by
  intro l
  induction l with
  | nil =>
    intro _ k v hv
    exact absurd hv (List.not_mem_nil _)
  | cons q rest ih =>
    intro hnd k v hv
    obtain ⟨x, w⟩ := q
    rcases List.mem_cons.1 hv with hv | hv
    · injection hv with h1 h2
      subst h1
      subst h2
      rw [aLookup, if_pos rfl]
    · have hkmem : k ∈ rest.map Prod.fst := by
        simpa using List.mem_map_of_mem Prod.fst hv
      have hne : k ≠ x := by
        intro he
        rw [NodupKeys, List.map_cons, List.nodup_cons] at hnd
        exact hnd.1 (he ▸ hkmem)
      rw [aLookup, if_neg hne]
      refine ih ?_ k v hv
      rw [NodupKeys, List.map_cons, List.nodup_cons] at hnd
      exact hnd.2

theorem mem_of_aLookup {β : Type} :
    ∀ (l : List (FieldValue × β)) (k : FieldValue) (v : β),
      aLookup l k = some v → (k, v) ∈ l := by
  intro l
  induction l with
  | nil => intro k v h; simp [aLookup] at h
  | cons q rest ih =>
    intro k v h
    obtain ⟨x, w⟩ := q
    rw [aLookup] at h
    by_cases hk : k = x
    · rw [if_pos hk] at h
      injection h with h
      subst hk
      subst h
      exact List.mem_cons_self _ _
    · rw [if_neg hk] at h
      exact List.mem_cons_of_mem _ (ih k v h)

theorem GoodGroups_insert (g : CatGroups) (rec : Obj) (hg : GoodGroups g) :
    GoodGroups (insertRecordGroup g rec) := by
  obtain ⟨hg1, hg2⟩ := hg
  refine ⟨NodupKeys_mapUpd _ _ g hg1, ?_⟩
  intro cp hcp
  rcases mem_mapUpd _ _ g hg1 cp hcp with ⟨hin, _⟩ | heq
  · exact hg2 cp hin
  · rw [heq]
    have hbase : NodupKeys ((aLookup g (getProp rec "category")).getD ([] : RegionGroups)) ∧
        ∀ rp ∈ (aLookup g (getProp rec "category")).getD ([] : RegionGroups),
          NodupKeys rp.2 := by
      cases hgc : aLookup g (getProp rec "category") with
      | none => exact ⟨by simp [NodupKeys], by simp⟩
      | some rm =>
        have hmem := mem_of_aLookup g _ rm hgc
        have h2 := hg2 _ hmem
        exact ⟨by simpa using h2.1, by simpa using h2.2⟩
    refine ⟨NodupKeys_mapUpd _ _ _ hbase.1, ?_⟩
    intro rp hrp
    rcases mem_mapUpd _ _ _ hbase.1 rp hrp with ⟨hin2, _⟩ | heq2
    · exact hbase.2 rp hin2
    · rw [heq2]
      refine NodupKeys_mapUpd _ _ _ ?_
      cases hrm : aLookup ((aLookup g (getProp rec "category")).getD [])
          (getProp rec "region") with
      | none => simp [NodupKeys]
      | some zg =>
        have := hbase.2 _ (mem_of_aLookup _ _ _ hrm)
        simpa using this

theorem GoodGroups_groupWines (data : List Obj) : GoodGroups (groupWines data) := by
  rw [groupWines]
  have hgen : ∀ (l : List Obj) (g : CatGroups), GoodGroups g →
      GoodGroups (l.foldl insertRecordGroup g) := by
    intro l
    induction l with
    | nil => intro g hg; exact hg
    | cons rec rest ih =>
      intro g hg
      exact ih _ (GoodGroups_insert g rec hg)
  exact hgen data [] ⟨by simp [NodupKeys], by simp⟩

theorem mem_builder_items (data : List Obj) (sec : WineSection)
    (hsec : sec ∈ wineDataYamlBuilderWines data) :
    sec.items = itemsAt (groupWines data) sec.category sec.region sec.zone := by
  have hgood := GoodGroups_groupWines data
  rw [wineDataYamlBuilderWines] at hsec
  rcases List.mem_flatMap.1 hsec with ⟨cp, hcp, hsec2⟩
  rcases List.mem_flatMap.1 hsec2 with ⟨rp, hrp, hsec3⟩
  rcases List.mem_map.1 hsec3 with ⟨zp, hzp, hre⟩
  obtain ⟨c1, c2⟩ := cp
  obtain ⟨r1, r2⟩ := rp
  obtain ⟨z1, z2⟩ := zp
  subst hre
  have h1 : aLookup (groupWines data) c1 = some c2 :=
    aLookup_of_mem _ hgood.1 c1 c2 hcp
  have hgood2 := hgood.2 (c1, c2) hcp
  have h2 : aLookup c2 r1 = some r2 :=
    aLookup_of_mem _ hgood2.1 r1 r2 hrp
  have h3 : aLookup r2 z1 = some z2 :=
    aLookup_of_mem _ (hgood2.2 (r1, r2) hrp) z1 z2 hzp
  simp [itemsAt, h1, h2, h3]

/-- C7: the document assembler's grouping places each record in exactly one
(category, region, zone) bucket: each emitted section's items are exactly
the stripped records whose keys match that section (in input order), the
flattened items across sections are a permutation of all stripped input
records, and the total item count equals the input length; each item retains
all of the record's fields except category, region and zone, which are
lifted to the section header (stripGroupKeys). -/
theorem wineDataYamlBuilder_grouping_complete (data : List Obj) :
    (((wineDataYamlBuilderWines data).map (fun s => s.items.length)).sum
        = data.length) ∧
    (∀ sec ∈ wineDataYamlBuilderWines data,
      sec.items =
        (data.filter (fun rec => keyMatches rec sec.category sec.region sec.zone)).map
          stripGroupKeys) ∧
    List.Perm ((wineDataYamlBuilderWines data).flatMap (fun s => s.items))
      (data.map stripGroupKeys) := by
  have h1 : (wineDataYamlBuilderWines data).flatMap (fun s => s.items) =
      flatItems (groupWines data) := by
    rw [wineDataYamlBuilderWines, flatItems]
    simp [List.bind_assoc, List.flatMap_map]
  have hperm : List.Perm ((wineDataYamlBuilderWines data).flatMap (fun s => s.items))
      (data.map stripGroupKeys) := by
    rw [h1]
    have h2 := flatItems_groupWines data []
    simpa [groupWines, flatItems] using h2
  refine ⟨?_, ?_, hperm⟩
  · have hlen := hperm.length_eq
    rw [List.length_flatMap, List.length_map] at hlen
    simpa [Function.comp] using hlen
  · intro sec hsec
    rw [mem_builder_items data sec hsec, groupWines,
      itemsAt_groupWines_aux _ _ _ data []]
    simp [itemsAt, aLookup]

/-- Concrete record object for the grouping witness. -/
def objW : Obj :=
  [("name", .str "Barolo 2019"), ("category", .str "Rosso"),
   ("region", .str "Piemonte"), ("zone", .str "Langhe"),
   ("producer", .str "Cantina Uno")]

/-- Instantiation of the grouping theorem: the single bucket of a singleton
input holds exactly the stripped record. -/
theorem wineDataYamlBuilder_grouping_complete_witness :
    ∃ sec ∈ wineDataYamlBuilderWines [objW],
      sec.items =
        ([objW].filter (fun rec => keyMatches rec sec.category sec.region sec.zone)).map
          stripGroupKeys :=
  ⟨⟨.str "Rosso", .str "Piemonte", .str "Langhe", [stripGroupKeys objW]⟩,
   by decide,
   (wineDataYamlBuilder_grouping_complete [objW]).2.1
     ⟨.str "Rosso", .str "Piemonte", .str "Langhe", [stripGroupKeys objW]⟩
     (by decide)⟩

/-- In-memory file contents, modelled by their byte length: the publisher
inspects only the size, the raw bytes are merely re-encoded into the upload
body. -/
structure Buffer where
  size : ℕ
  deriving DecidableEq

/-- Error value of a rejected publish operation; the optional fields model
the properties the source attaches to its enhanced errors. -/
structure JErr where
  message : String
  status : Option ℕ
  filename : Option String
  attachmentField : Option String
  recordId : Option String
  deriving DecidableEq

/-- Plain Error with only a message. -/
def mkErr (msg : String) : JErr := ⟨msg, none, none, none, none⟩

/-- Remote Airtable record as returned by createRecord and getRecord. -/
structure AirRecord where
  id : String
  fields : Obj
  deriving DecidableEq

/-- Response of the uploadAttachment endpoint; bodyJson is the
JSON.stringify rendering of the parsed response body. -/
structure UploadResp where
  ok : Bool
  status : ℕ
  statusText : String
  bodyJson : String
  deriving DecidableEq

/-- Pre-determined responses of the external collaborators for one publish
run; each endpoint is called at most once. -/
structure PubEnv where
  download : Except JErr Buffer
  readFile : Except JErr Buffer
  createResp : Except JErr AirRecord
  verify1Resp : Except JErr AirRecord
  uploadResp : UploadResp
  verify2Resp : Except JErr AirRecord

/-- External actions the publisher performs, in order. -/
inductive PubAction where
  | downloadFile : PubAction
  | readLocalFile : PubAction
  | createRec : PubAction
  | fetchRec : PubAction
  | uploadAtt : PubAction
  | fetchRec2 : PubAction
  deriving DecidableEq

/-- Destructured parameters of uploadRecordWithAttachment; none models an
undefined (or null) argument, and for fields a non-object one. -/
structure PubParams where
  token : Option String
  baseId : Option String
  tableIdOrName : Option String
  fields : Option Obj
  attachmentFieldIdOrName : Option String
  filePath : Option String
  filename : Option String
  contentType : Option String
  returnFieldsByFieldId : Bool

/-- Missing-parameter check of the source: undefined, null and the empty
string all count as missing. -/
def strParam (o : Option String) : Option String :=
  match o with
  | some s => if s = "" then none else some s
  | none => none

/-- JS String.prototype.startsWith. -/
def strStartsWith (s pre : String) : Bool :=
  pre.toList.isPrefixOf s.toList

/-- filePath.startsWith("http://") || filePath.startsWith("https://"). -/
def isUrlStr (s : String) : Bool :=
  strStartsWith s "http://" || strStartsWith s "https://"

/-- path.basename: the component after the last separator, with trailing
separators ignored. -/
def pathBasename (s : String) : String :=
  let cs := s.toList.reverse.dropWhile (fun c => c == '/')
  String.mk ((cs.takeWhile (fun c => !(c == '/'))).reverse)

/-- Characters after the scheme separator of a URL. -/
def afterScheme : List Char → List Char
  | [] => []
  | ':' :: '/' :: '/' :: rest => rest
  | _ :: rest => afterScheme rest

/-- Pathname of an http(s) URL (new URL(x).pathname): from the first slash
after the host up to the query or fragment; the root path when absent. -/
def urlPathname (u : String) : String :=
  let host := afterScheme u.toList
  let path := (host.dropWhile (fun c => !(c == '/'))).takeWhile
    (fun c => !(c == '?' || c == '#'))
  if path.isEmpty then "/" else String.mk path

/-- path.extname: the suffix from the last dot of the basename, empty for a
leading dot or no dot. -/
def extname (s : String) : String :=
  let b := (pathBasename s).toList
  let afterDot := b.reverse.takeWhile (fun c => !(c == '.'))
  if afterDot.length + 2 ≤ b.length then String.mk ('.' :: afterDot.reverse) else ""

/-- ASCII lowercasing of a string. -/
def lowerStr (s : String) : String :=
  String.mk (s.toList.map Char.toLower)

/-- Extension table of guessContentTypeFromFilename (airtableApi.js lines
63-86). -/
def mimeTypes : List (String × String) :=
  [(".pdf", "application/pdf"), (".jpg", "image/jpeg"), (".jpeg", "image/jpeg"),
   (".png", "image/png"), (".gif", "image/gif"), (".webp", "image/webp"),
   (".svg", "image/svg+xml"), (".txt", "text/plain"), (".csv", "text/csv"),
   (".json", "application/json"), (".xml", "application/xml"),
   (".zip", "application/zip"), (".doc", "application/msword"),
   (".docx", "application/vnd.openxmlformats-officedocument.wordprocessingml.document"),
   (".xls", "application/vnd.ms-excel"),
   (".xlsx", "application/vnd.openxmlformats-officedocument.spreadsheetml.sheet")]

/-- Best-effort MIME type from the file extension, case-insensitive. -/
def guessContentTypeFromFilename (filename : String) : String :=
  (mimeTypes.lookup (lowerStr (extname filename))).getD "application/octet-stream"

/-- Size ceiling of the uploadAttachment endpoint: 5 MB. -/
def MAX_UPLOAD : ℕ := 5 * 1024 * 1024

/-- Remediation hint appended to a 403 createRecord failure. -/
def createErrHint (tableIdOrName baseId : String) (fields : Obj) : String :=
  "\n\nPossible causes:\n- The token does not have write permissions for table \"" ++
    tableIdOrName ++ "\" in base \"" ++ baseId ++ "\"\n- The table \"" ++
    tableIdOrName ++ "\" does not exist in base \"" ++ baseId ++
    "\"\n- Field names in the payload do not match the table schema\n- The token is invalid or expired\n\nPlease verify:\n1. Token permissions in Airtable (Account > Personal access tokens)\n2. Table ID/name is correct: \"" ++
    tableIdOrName ++ "\"\n3. Base ID is correct: \"" ++ baseId ++
    "\"\n4. Field names match exactly: " ++
    String.intercalate ", " (fields.map (fun kv => kv.1))

/-- Hint for an upload 404 when a field name (not id) was supplied. -/
def upload404HintName (att : String) : String :=
  "\n\nIMPORTANT: The uploadAttachment endpoint may require the field ID instead of the field name.\nYou provided: \"" ++
    att ++
    "\" (field name)\nTry using the field ID instead (starts with \"fld\", e.g., \"fldzJAZ8ffCr4NMLO\").\nYou can find the field ID in Airtable's API documentation or by inspecting the table schema."

/-- Hint for an upload 404 when a field id was supplied. -/
def upload404HintId (att tableIdOrName recordId baseId : String) : String :=
  "\n\nPossible causes:\n- The field ID \"" ++ att ++ "\" does not exist in table \"" ++
    tableIdOrName ++ "\"\n- The field is not an attachment field\n- The record \"" ++
    recordId ++ "\" does not exist or is not accessible\n- The base \"" ++ baseId ++
    "\" or table \"" ++ tableIdOrName ++ "\" is incorrect"

/-- JS typeof on a modelled field value. -/
def typeofJS : FieldValue → String
  | .str _ => "string"
  | .num _ => "number"
  | .boolV _ => "boolean"
  | _ => "object"

/-- Diagnostic line describing the observed attachment-field value. -/
def attachFieldStatus (att : String) (v : Option FieldValue) : String :=
  match v with
  | none =>
    "Field \"" ++ att ++ "\" is empty (Airtable doesn't return empty fields in API responses)"
  | some (.arr []) => "Field \"" ++ att ++ "\" exists but is empty"
  | some w => "Field \"" ++ att ++ "\" has unexpected type: " ++ typeofJS w

/-- Array.isArray(attachmentField) && attachmentField.length > 0. -/
def hasAttachmentVal (v : Option FieldValue) : Bool :=
  match v with
  | some (.arr (_ :: _)) => true
  | _ => false

/-- Wrapping performed by the catch around the upload and verification steps
(airtableApi.js lines 1370-1394): the message is prefixed and the record id,
field and filename context is attached; a status is kept when present. -/
def wrapUpdError (e : JErr) (recordId att fn : String) : JErr :=
  { message := "Error updating record with attachment: " ++
      (if e.message = "" then "Unknown error" else e.message),
    status := if e.status = some 0 then none else e.status,
    filename := some fn,
    attachmentField := some att,
    recordId := some recordId }

/-- uploadRecordWithAttachment (airtableApi.js lines 924-1396): parameter
validation, file resolution (download or local read), size ceiling, record
creation without the attachment field, propagation delay and re-fetch,
binary upload, second delay and attachment verification.  The fixed sleeps
are timing and outside the model; the external calls take their responses
from env, and the performed calls are logged in order. -/
def uploadRecordWithAttachment (env : PubEnv) (p : PubParams) :
    List PubAction × Except JErr AirRecord :=
  match strParam p.token with
  | none => ([], .error (mkErr "token is required for uploadRecordWithAttachment"))
  | some _ =>
  match strParam p.baseId with
  | none => ([], .error (mkErr "baseId is required for uploadRecordWithAttachment"))
  | some baseId =>
  match strParam p.tableIdOrName with
  | none =>
    ([], .error (mkErr "tableIdOrName is required for uploadRecordWithAttachment"))
  | some tableIdOrName =>
  match p.fields with
  | none => ([], .error (mkErr "fields is required for uploadRecordWithAttachment"))
  | some fields =>
  match strParam p.attachmentFieldIdOrName with
  | none =>
    ([], .error
      (mkErr "attachmentFieldIdOrName is required for uploadRecordWithAttachment"))
  | some attachmentFieldIdOrName =>
  match strParam p.filePath with
  | none => ([], .error (mkErr "filePath is required for uploadRecordWithAttachment"))
  | some filePath =>
  let isUrl := isUrlStr filePath
  let act1 := if isUrl then PubAction.downloadFile else PubAction.readLocalFile
  match (if isUrl then env.download else env.readFile) with
  | .error e => ([act1], .error e)
  | .ok fileBuf =>
  let fallbackName :=
    if isUrl then
      (let b := pathBasename (urlPathname filePath)
       if b = "" then "attachment" else b)
    else pathBasename filePath
  let finalFilename :=
    match p.filename with
    | some f => if f = "" then fallbackName else f
    | none => fallbackName
  let sizeBytes := fileBuf.size
  if sizeBytes > MAX_UPLOAD then
    ([act1], .error (mkErr
      ("File too large for uploadAttachment endpoint: " ++ toString sizeBytes ++
        " bytes. Max is " ++ toString MAX_UPLOAD ++ " bytes (5 MB).")))
  else
  match env.createResp with
  | .error e =>
    ([act1, .createRec], .error
      { message := "Error creating record for uploadRecordWithAttachment: " ++
          e.message ++
          (if e.status = some 403 then createErrHint tableIdOrName baseId fields else ""),
        status := e.status, filename := none, attachmentField := none,
        recordId := none })
  | .ok newRecord =>
  if newRecord.id = "" then
    ([act1, .createRec], .error (mkErr "Failed to create record: no record ID returned"))
  else
  let recordId := newRecord.id
  let useFieldId := strStartsWith attachmentFieldIdOrName "fld"
  match env.verify1Resp with
  | .error ve =>
    ([act1, .createRec, .fetchRec], .error (mkErr
      ("Cannot proceed with attachment upload: Record " ++ recordId ++
        " does not exist or cannot be accessed. Error: " ++ ve.message)))
  | .ok _ =>
  let up := env.uploadResp
  if up.ok = false then
    let errorMessage :=
      "Airtable uploadAttachment failed: " ++ toString up.status ++ " " ++
        up.statusText ++ ". " ++ up.bodyJson ++
        (if up.status = 404 ∧ useFieldId = false then
          upload404HintName attachmentFieldIdOrName
         else if up.status = 404 then
          upload404HintId attachmentFieldIdOrName tableIdOrName recordId baseId
         else "")
    ([act1, .createRec, .fetchRec, .uploadAtt],
      .error (wrapUpdError (mkErr errorMessage) recordId attachmentFieldIdOrName
        finalFilename))
  else
  match env.verify2Resp with
  | .error e2 =>
    ([act1, .createRec, .fetchRec, .uploadAtt, .fetchRec2],
      .error (wrapUpdError e2 recordId attachmentFieldIdOrName finalFilename))
  | .ok verifyRecord =>
  let attachmentField := verifyRecord.fields.lookup attachmentFieldIdOrName
  let hasAttachment : Bool := hasAttachmentVal attachmentField
  if hasAttachment = false then
    let errorMsg := "Attachment verification failed: The file \"" ++ finalFilename ++
      "\" was not found in field \"" ++ attachmentFieldIdOrName ++
      "\" after uploadAttachment. " ++
      attachFieldStatus attachmentFieldIdOrName attachmentField
    ([act1, .createRec, .fetchRec, .uploadAtt, .fetchRec2],
      .error (wrapUpdError ⟨errorMsg, some 500, none, none, none⟩ recordId
        attachmentFieldIdOrName finalFilename))
  else
    ([act1, .createRec, .fetchRec, .uploadAtt, .fetchRec2], .ok verifyRecord)

/-- A string starting with a non-empty literal chunk is non-empty. -/
theorem append_ne_empty_of_left (a b : String) (ha : a.length ≠ 0) :
    a ++ b ≠ "" := by
  intro h
  have h2 := congrArg String.length h
  rw [String.length_append] at h2
  have h0 : String.length "" = 0 := rfl
  omega

/-- C8: in the attachment publisher, a resolved source file larger than
5 MB — MAX_UPLOAD = 5 * 1024 * 1024 bytes — makes uploadRecordWithAttachment
fail with the descriptive size error, and neither the record-creation call
nor the attachment-upload call is ever performed. -/
theorem uploadRecordWithAttachment_size_limit (env : PubEnv) (p : PubParams)
    (tok bid tab : String) (fields : Obj) (att fp : String) (buf : Buffer)
    (htok : strParam p.token = some tok) (hbid : strParam p.baseId = some bid)
    (htab : strParam p.tableIdOrName = some tab) (hf : p.fields = some fields)
    (hatt : strParam p.attachmentFieldIdOrName = some att)
    (hfp : strParam p.filePath = some fp)
    (hbuf : (if isUrlStr fp then env.download else env.readFile) = .ok buf)
    (hsize : buf.size > 5 * 1024 * 1024) :
    (uploadRecordWithAttachment env p).2 = .error (mkErr
        ("File too large for uploadAttachment endpoint: " ++ toString buf.size ++
          " bytes. Max is " ++ toString MAX_UPLOAD ++ " bytes (5 MB).")) ∧
      PubAction.createRec ∉ (uploadRecordWithAttachment env p).1 ∧
      PubAction.uploadAtt ∉ (uploadRecordWithAttachment env p).1 := by
  have hsz : buf.size > MAX_UPLOAD := hsize
  have key : uploadRecordWithAttachment env p =
      ([if isUrlStr fp then PubAction.downloadFile else PubAction.readLocalFile],
        .error (mkErr
          ("File too large for uploadAttachment endpoint: " ++ toString buf.size ++
            " bytes. Max is " ++ toString MAX_UPLOAD ++ " bytes (5 MB).")))
      := by
    simp only [uploadRecordWithAttachment, htok, hbid, htab, hf, hatt, hfp, hbuf]
    rw [if_pos hsz]
  refine ⟨by rw [key], ?_, ?_⟩
  · rw [key]
    cases hb : isUrlStr fp <;> simp [hb]
  · rw [key]
    cases hb : isUrlStr fp <;> simp [hb]

def pubEnvW8 : PubEnv :=
  ⟨.error (mkErr "unused"), .ok ⟨5242881⟩, .error (mkErr "unused"),
    .error (mkErr "unused"), ⟨false, 0, "", ""⟩, .error (mkErr "unused")⟩

def pubParamsW8 : PubParams :=
  ⟨some "tok", some "appBase", some "Wines", some [], some "fldAtt",
    some "/tmp/big.pdf", some "big.pdf", none, false⟩

/-- Witness for the C8 theorem on a concrete 5242881-byte local file. -/
theorem uploadRecordWithAttachment_size_limit_witness :
    (uploadRecordWithAttachment pubEnvW8 pubParamsW8).2 = .error (mkErr
        ("File too large for uploadAttachment endpoint: " ++ toString (5242881 : ℕ) ++
          " bytes. Max is " ++ toString MAX_UPLOAD ++ " bytes (5 MB).")) ∧
      PubAction.createRec ∉ (uploadRecordWithAttachment pubEnvW8 pubParamsW8).1 ∧
      PubAction.uploadAtt ∉ (uploadRecordWithAttachment pubEnvW8 pubParamsW8).1 :=
  uploadRecordWithAttachment_size_limit pubEnvW8 pubParamsW8 "tok" "appBase" "Wines"
    [] "fldAtt" "/tmp/big.pdf" ⟨5242881⟩ rfl rfl rfl rfl rfl rfl rfl (by decide)

/-- C9: when every step up to the post-upload re-fetch succeeds but the
re-fetched record's attachment field is undefined, an empty list, or a
non-list value, uploadRecordWithAttachment returns an error whose message
names the filename and the attachment field (the wrapped
verification-failure text), carries them as error properties with status
500, and never returns a success record. -/
theorem uploadRecordWithAttachment_verify_failure (env : PubEnv) (p : PubParams)
    (tok bid tab : String) (fields : Obj) (att fp fn : String) (buf : Buffer)
    (rec v1 v2 : AirRecord)
    (htok : strParam p.token = some tok) (hbid : strParam p.baseId = some bid)
    (htab : strParam p.tableIdOrName = some tab) (hf : p.fields = some fields)
    (hatt : strParam p.attachmentFieldIdOrName = some att)
    (hfp : strParam p.filePath = some fp)
    (hfn : p.filename = some fn) (hfn0 : ¬ fn = "")
    (hbuf : (if isUrlStr fp then env.download else env.readFile) = .ok buf)
    (hsize : ¬ buf.size > MAX_UPLOAD)
    (hcr : env.createResp = .ok rec) (hid : ¬ rec.id = "")
    (hv1 : env.verify1Resp = .ok v1)
    (hok : env.uploadResp.ok = true)
    (hv2 : env.verify2Resp = .ok v2)
    (hbad : ∀ x xs, ¬ v2.fields.lookup att = some (.arr (x :: xs))) :
    (uploadRecordWithAttachment env p).2 = .error
        ⟨"Error updating record with attachment: " ++
            ("Attachment verification failed: The file \"" ++ fn ++
              "\" was not found in field \"" ++ att ++ "\" after uploadAttachment. " ++
              attachFieldStatus att (v2.fields.lookup att)),
          some 500, some fn, some att, some rec.id⟩ ∧
      ∀ r, ¬ (uploadRecordWithAttachment env p).2 = .ok r := by
  have hne : ("Attachment verification failed: The file \"" ++ fn ++
      "\" was not found in field \"" ++ att ++ "\" after uploadAttachment. " ++
      attachFieldStatus att (v2.fields.lookup att)) ≠ "" := by
    have h1 : ¬ ("Attachment verification failed: The file \"" : String).length = 0 := by
      decide
    intro h
    have h2 := congrArg String.length h
    rw [String.length_append, String.length_append, String.length_append,
      String.length_append, String.length_append] at h2
    have h0 : String.length "" = 0 := rfl
    omega
  have hfirst : (uploadRecordWithAttachment env p).2 = .error
      ⟨"Error updating record with attachment: " ++
          ("Attachment verification failed: The file \"" ++ fn ++
            "\" was not found in field \"" ++ att ++ "\" after uploadAttachment. " ++
            attachFieldStatus att (v2.fields.lookup att)),
        some 500, some fn, some att, some rec.id⟩ := by
    have hhas : hasAttachmentVal (v2.fields.lookup att) = false := by
      rcases hl : v2.fields.lookup att with _ | v
      · rfl
      · rcases v with _ | s | q | b | l | w
        · rfl
        · rfl
        · rfl
        · rfl
        · rcases l with _ | ⟨x, xs⟩
          · rfl
          · exact absurd hl (hbad x xs)
        · rfl
        · rfl
    simp only [uploadRecordWithAttachment, htok, hbid, htab, hf, hatt, hfp, hbuf,
      hfn, hcr, hv1, hv2, hok, wrapUpdError]
    rw [if_neg hfn0, if_neg hsize, if_neg hid,
      if_neg (show ¬ (true = false) by decide), hhas,
      if_pos rfl, if_neg hne]
    simp
  refine ⟨hfirst, fun r h => ?_⟩
  rw [hfirst] at h
  exact Except.noConfusion h

def pubEnvW9 : PubEnv :=
  ⟨.error (mkErr "unused"), .ok ⟨1024⟩, .ok ⟨"recNew1", []⟩, .ok ⟨"recNew1", []⟩,
    ⟨true, 200, "OK", "\x7b\x7d"⟩, .ok ⟨"recNew1", []⟩⟩

def pubParamsW9 : PubParams :=
  ⟨some "tok", some "appBase", some "Wines", some [], some "fldAtt",
    some "/tmp/list.pdf", some "list.pdf", none, false⟩

/-- Witness for the C9 theorem: all remote calls succeed but the re-fetched
record omits the attachment field entirely. -/
theorem uploadRecordWithAttachment_verify_failure_witness :
    (uploadRecordWithAttachment pubEnvW9 pubParamsW9).2 = .error
        ⟨"Error updating record with attachment: " ++
            ("Attachment verification failed: The file \"" ++ "list.pdf" ++
              "\" was not found in field \"" ++ "fldAtt" ++
              "\" after uploadAttachment. " ++
              attachFieldStatus "fldAtt" (List.lookup "fldAtt" ([] : Obj))),
          some 500, some "list.pdf", some "fldAtt", some "recNew1"⟩ ∧
      ∀ r, ¬ (uploadRecordWithAttachment pubEnvW9 pubParamsW9).2 = .ok r :=
  uploadRecordWithAttachment_verify_failure pubEnvW9 pubParamsW9 "tok" "appBase"
    "Wines" [] "fldAtt" "/tmp/list.pdf" "list.pdf" ⟨1024⟩ ⟨"recNew1", []⟩
    ⟨"recNew1", []⟩ ⟨"recNew1", []⟩ rfl rfl rfl rfl rfl rfl rfl (by decide) rfl
    (by decide) rfl (by decide) rfl rfl rfl
    (fun x xs h => Option.noConfusion h)

end WineQuoteKit
